import Mathlib

/-!
Verification development for a schema-diffing tool.

The program under study parses two textual schema definitions into a
structured model (`Schema`) and diffs them, producing an ordered list of
migration command strings.  This file shallowly embeds the parser
(`parseSchema`), the diff engine (`generateSchemaAltersInternal`), the
boundary wrapper (`generateSchemaAlters`), and the column-similarity
heuristic (`columnSimilarity`), and proves or refutes the frozen claims
about them.

Conventions of the embedding:
* JavaScript strings are Lean `String`s; character-level processing is
  done on `List Char` (`String.data`).
* JavaScript's thrown errors become `Except String` results, carrying the
  error message.
* JavaScript objects used as ordered string-keyed maps become association
  lists (`List (String × _)`) iterated in insertion order; assigning to an
  existing key updates the value in place (`objInsert`).
* JavaScript `Map` built from an array keeps the last entry per key
  (`lastByName`), while object indexing finds the unique entry
  (`objGet`, first match).
* JavaScript truthiness of a `string | null` field is `truthyStr`.
* Regex operations of the source are implemented operationally with the
  same matching semantics on the inputs the program feeds them.
-/

namespace PgDiff

/-! ## Character and string utilities -/

/-- Whitespace characters as matched by the source's `\s` and `trim()` on
the ASCII range. -/
def jsWs (c : Char) : Bool :=
  c = ' ' || c = '\t' || c = '\n' || c = '\r' || c = '\x0b' || c = '\x0c'

/-- Trim leading and trailing whitespace, as `String.prototype.trim`. -/
def jsTrim (l : List Char) : List Char :=
  ((l.dropWhile jsWs).reverse.dropWhile jsWs).reverse

/-- The backquote character (code 96). -/
def backquoteChar : Char := Char.ofNat 96

/-- The single-quote character (code 39). -/
def quoteChar : Char := Char.ofNat 39

/-- Line terminators other than `'\n'`.  The `.` of the source's comment
regex matches none of the line terminators, so a comment candidate whose
body reaches one of these characters before a `'\n'` is not a match. -/
def jsBlockTerm (c : Char) : Bool :=
  c = '\r' || c = Char.ofNat 0x2028 || c = Char.ofNat 0x2029

/-- Auxiliary scanner for `stripComments`.  The first argument is `none`
in normal mode and `some acc` inside a comment candidate, where `acc`
holds the consumed characters in reverse.  A candidate closed by `'\n'`
is replaced by a newline.  A candidate that reaches the end of input, or
a line terminator other than `'\n'` (which the regex's `.` cannot match),
has no match: its characters are emitted verbatim and scanning resumes —
no new candidate can start inside the emitted span, because any `--`
there would run into the same terminator before any newline. -/
def scAux : Option (List Char) → List Char → List Char
  | none, [] => []
  | none, '-' :: '-' :: rest => scAux (some ['-', '-']) rest
  | none, c :: rest => c :: scAux none rest
  | some acc, [] => acc.reverse
  | some _, '\n' :: rest => '\n' :: scAux none rest
  | some acc, c :: rest =>
    if jsBlockTerm c then acc.reverse ++ c :: scAux none rest
    else scAux (some (c :: acc)) rest

/-- Replace every match of the global regex `--.*?\n` by a newline, the
first cleanup step of the source's `parseSchema`. -/
def stripComments (l : List Char) : List Char := scAux none l

/-- Remove double quotes and backquotes, as `.replace(/["`]/g, '')`. -/
def removeQuotes (l : List Char) : List Char :=
  l.filter (fun c => c ≠ '"' && c ≠ backquoteChar)

/-- Whitespace-run collapsing, as `.replace(/\s+/g, ' ')`.  The flag
records whether the previous character was part of a whitespace run. -/
def cwAux : Bool → List Char → List Char
  | _, [] => []
  | prevWs, c :: rest =>
    if jsWs c then
      if prevWs then cwAux true rest else ' ' :: cwAux true rest
    else c :: cwAux false rest

/-- Collapse internal whitespace runs to single spaces. -/
def collapseWs (l : List Char) : List Char := cwAux false l

/-- Case-insensitive prefix strip: if the uppercase pattern `pat` is a
case-insensitive prefix of `l`, return the remainder. -/
def stripCI : List Char → List Char → Option (List Char)
  | [], l => some l
  | _ :: _, [] => none
  | p :: ps, c :: cs => if p.toUpper = c.toUpper then stripCI ps cs else none

/-- Case-insensitive prefix test, as `/^pat/i.test(s)`. -/
def startsWithCI (pat : List Char) (l : List Char) : Bool :=
  (stripCI pat l).isSome

/-- Case-sensitive prefix strip. -/
def stripExact : List Char → List Char → Option (List Char)
  | [], l => some l
  | _ :: _, [] => none
  | p :: ps, c :: cs => if p = c then stripExact ps cs else none

/-- Case-sensitive prefix test. -/
def startsWithExact (pat : List Char) (l : List Char) : Bool :=
  (stripExact pat l).isSome

/-- Substring test, as `String.prototype.includes`. -/
def hasSub (pat : List Char) : List Char → Bool
  | [] => startsWithExact pat []
  | c :: rest => startsWithExact pat (c :: rest) || hasSub pat rest

/-- Uppercase a string, as `toUpperCase()` on ASCII input. -/
def upStr (s : String) : String := (s.data.map Char.toUpper).asString

/-- First parenthesis character (either kind) of a list, if any.  The
lookaheads `(?![^()]*\))` and `(?![^(]*\))` of the source's split regexes
both succeed exactly when this is `some ')'`. -/
def firstParenChar : List Char → Option Char
  | [] => none
  | c :: rest => if c = '(' || c = ')' then some c else firstParenChar rest

/-- Split on a separator character that is not followed by a closing
parenthesis before any opening one, as the source's
`split(/;(?![^()]*\))/)` and `split(/,(?![^(]*\))/)`. -/
def splitSepAux (sep : Char) (cur : List Char) : List Char → List (List Char)
  | [] => [cur.reverse]
  | c :: rest =>
    if c = sep then
      if firstParenChar rest = some ')' then splitSepAux sep (c :: cur) rest
      else cur.reverse :: splitSepAux sep [] rest
    else splitSepAux sep (c :: cur) rest

/-- Split a cleaned schema text into raw statements on semicolons. -/
def splitStmts (l : List Char) : List (List Char) := splitSepAux ';' [] l

/-- Split a column-list substring into fragments on commas. -/
def splitCols (l : List Char) : List (List Char) := splitSepAux ',' [] l

/-- Split an enum value list on `/, ?/` (a comma optionally followed by
one space). -/
def sevAux (cur : List Char) : List Char → List (List Char)
  | [] => [cur.reverse]
  | ',' :: ' ' :: rest => cur.reverse :: sevAux [] rest
  | ',' :: rest => cur.reverse :: sevAux [] rest
  | c :: rest => sevAux (c :: cur) rest

/-- Split an enum value list, as `split(/, ?/)`. -/
def splitEnumVals (l : List Char) : List (List Char) := sevAux [] l

/-- Split on whitespace runs, as `split(/\s+/)`: an empty input yields one
empty fragment, a leading or trailing run yields an empty fragment on the
corresponding side.  The mode is `some cur` while building a fragment and
`none` immediately after a whitespace run. -/
def splitWsM : Option (List Char) → List Char → List (List Char)
  | none, [] => [[]]
  | none, c :: rest =>
    if jsWs c then splitWsM none rest else splitWsM (some [c]) rest
  | some cur, [] => [cur.reverse]
  | some cur, c :: rest =>
    if jsWs c then cur.reverse :: splitWsM none rest
    else splitWsM (some (c :: cur)) rest

/-- Split a column fragment into tokens on whitespace. -/
def splitWsJS (l : List Char) : List (List Char) := splitWsM (some []) l

/-! ## Data model -/

/-- A parsed column: name, raw type text (possibly with qualifiers), the
not-null flag, and an optional default value (`null` in the source is
`none`). -/
structure Column where
  name : String
  type : String
  notNull : Bool
  defaultValue : Option String
  deriving DecidableEq, Repr

/-- A parsed user-defined type: an enumerated type with its ordered value
list, or a composite type with its opaque definition text. -/
inductive TypeDef where
  | enum (values : List String)
  | composite (definition : String)
  deriving DecidableEq, Repr

/-- A parsed schema: insertion-ordered mappings from type names to type
definitions and from table names to column lists. -/
structure Schema where
  types : List (String × TypeDef)
  tables : List (String × List Column)
  deriving DecidableEq, Repr

/-- Object indexing `obj[k]`: the value at the (unique) key, if present. -/
def objGet {α : Type} (l : List (String × α)) (k : String) : Option α :=
  (l.find? (fun p => p.1 == k)).map (·.2)

/-- Object assignment `obj[k] = v`: update in place if the key exists
(keeping its position), otherwise append. -/
def objInsert {α : Type} : List (String × α) → String → α → List (String × α)
  | [], k, v => [(k, v)]
  | p :: rest, k, v =>
    if p.1 = k then (k, v) :: rest else p :: objInsert rest k v

/-- JavaScript truthiness of a `string | null` value: `null` and the empty
string are falsy. -/
def truthyStr : Option String → Bool
  | none => false
  | some s => s ≠ ""

/-! ## Parser -/

/-- Result of the `CREATE TYPE` regex: the type name together with either
the raw enum value-list text (group 3) or the raw composite definition
text (group 4). -/
def tryCreateTypeAt (l : List Char) : Option (String × (List Char ⊕ List Char)) :=
  match stripCI "CREATE TYPE ".data l with
  | none => none
  | some r1 =>
    let nameL := r1.takeWhile (· ≠ ' ')
    if nameL = [] then none
    else
      match stripCI " AS ".data (r1.drop nameL.length) with
      | none => none
      | some r3 =>
        let alt1 : Option (String × (List Char ⊕ List Char)) :=
          match stripCI "ENUM".data r3 with
          | some r4 =>
            match r4.dropWhile (· = ' ') with
            | '(' :: r6 =>
              let inner := r6.takeWhile (· ≠ ')')
              if inner ≠ [] ∧ (r6.drop inner.length) ≠ [] then
                some (nameL.asString, Sum.inl inner)
              else none
            | _ => none
          | none => none
        alt1.orElse (fun _ =>
          let d := r3.takeWhile (· ≠ ';')
          if d = [] then none else some (nameL.asString, Sum.inr d))

/-- Unanchored search for the `CREATE TYPE` pattern, as
`s.match(/CREATE TYPE (\S+) AS (ENUM\s*\(([^)]+)\)|([^;]+))/i)`. -/
def searchCreateType : List Char → Option (String × (List Char ⊕ List Char))
  | [] => none
  | c :: rest =>
    match tryCreateTypeAt (c :: rest) with
    | some m => some m
    | none => searchCreateType rest

/-- Characters strictly before the last `')'` of a list, if one exists
(the value of the greedy group in `\((.*)\)` anchored at a known `'('`). -/
def lastCloseSplit (l : List Char) : Option (List Char) :=
  match l.reverse.dropWhile (· ≠ ')') with
  | [] => none
  | _ :: pre => some pre.reverse

/-- Result of the `CREATE TABLE` regex at a fixed position: table name and
the raw column-list text.  The optional `IF NOT EXISTS` group is tried
first (greedy), then skipped, as regex backtracking does. -/
def tryCreateTableAt (l : List Char) : Option (String × List Char) :=
  match stripCI "CREATE TABLE".data l with
  | none => none
  | some r1 =>
    let tryFrom : List Char → Option (String × List Char) := fun r =>
      match r with
      | ' ' :: r2 =>
        let nameL := r2.takeWhile (· ≠ ' ')
        if nameL = [] then none
        else
          match r2.drop nameL.length with
          | ' ' :: '(' :: r3 =>
            (lastCloseSplit r3).map (fun inner => (nameL.asString, inner))
          | _ => none
      | _ => none
    match stripCI " IF NOT EXISTS".data r1 with
    | some r2 => (tryFrom r2).orElse (fun _ => tryFrom r1)
    | none => tryFrom r1

/-- Unanchored search for the `CREATE TABLE` pattern, as
`s.match(/CREATE TABLE(?:\s+IF\s+NOT\s+EXISTS)?\s+(\S+)\s+\((.*)\)/i)`. -/
def searchCreateTable : List Char → Option (String × List Char)
  | [] => none
  | c :: rest =>
    match tryCreateTableAt (c :: rest) with
    | some m => some m
    | none => searchCreateTable rest

/-- Scan of the constraint tokens after a column's type: `NOT NULL` sets
the flag, `DEFAULT` takes all remaining tokens as the value (an empty or
whitespace-only value is an error), anything else is skipped. -/
def parseConstraintTokens (colName tableName : String) :
    List String → Bool → Option String → Except String (Bool × Option String)
  | [], nn, dv => .ok (nn, dv)
  | t :: rest, nn, dv =>
    if upStr t = "NOT" then
      match rest with
      | r :: rest2 =>
        if upStr r = "NULL" then parseConstraintTokens colName tableName rest2 true dv
        else parseConstraintTokens colName tableName (r :: rest2) nn dv
      | [] => .ok (nn, dv)
    else if upStr t = "DEFAULT" then
      let v := " ".intercalate rest
      if jsTrim v.data = [] then
        .error ("Column '" ++ colName ++ "' in table '" ++ tableName ++
          "' has DEFAULT keyword but no value specified")
      else .ok (nn, some v)
    else parseConstraintTokens colName tableName rest nn dv

/-- Stopper keywords endinga column's type text. -/
def typeStoppers : List String := ["DEFAULT", "NOT", "NULL", "CHECK"]

/-- Parse one column fragment into a `Column`. -/
def parseColumn (tableName : String) (frag : List Char) : Except String Column :=
  let tokens := (splitWsJS frag).map List.asString
  match tokens with
  | [] =>
    .error ("Invalid column definition in table '" ++ tableName ++ "': " ++ frag.asString)
  | [_] =>
    .error ("Invalid column definition in table '" ++ tableName ++ "': " ++ frag.asString)
  | nm :: rest =>
    let typeParts := rest.takeWhile (fun t => ¬ typeStoppers.contains (upStr t))
    let ctype := " ".intercalate typeParts
    if ctype = "" then
      .error ("Column '" ++ nm ++ "' in table '" ++ tableName ++ "' has no type specified")
    else
      match parseConstraintTokens nm tableName
          (rest.dropWhile (fun t => ¬ typeStoppers.contains (upStr t))) false none with
      | .error e => .error e
      | .ok (nn, dv) => .ok ⟨nm, ctype, nn, dv⟩

/-- Parse the fragments of a column list into columns. -/
def parseColumns (tableName : String) : List (List Char) → Except String (List Column)
  | [] => .ok []
  | f :: rest => do
    let c ← parseColumn tableName f
    let cs ← parseColumns tableName rest
    return c :: cs

/-- Table-level constraint fragments are dropped when they start with one
of these keywords, as `/^(PRIMARY|FOREIGN|CONSTRAINT|UNIQUE)/i`. -/
def isConstraintFrag (f : List Char) : Bool :=
  startsWithCI "PRIMARY".data f || startsWithCI "FOREIGN".data f ||
  startsWithCI "CONSTRAINT".data f || startsWithCI "UNIQUE".data f

/-- Process one raw statement, extending the schema or failing. -/
def parseOneStatement (sch : Schema) (stmt : List Char) : Except String Schema :=
  let s := jsTrim (collapseWs stmt)
  if startsWithCI "CREATE TYPE".data s then
    match searchCreateType s with
    | none =>
      .error ("Invalid CREATE TYPE syntax: " ++ (s.take 50).asString ++ "...")
    | some (typeName, Sum.inl rawVals) =>
      let values := (splitEnumVals rawVals).map
        (fun v => (jsTrim (v.filter (· ≠ quoteChar))).asString)
      if values.length = 0 then
        .error ("ENUM type '" ++ typeName ++ "' has no values")
      else .ok { sch with types := objInsert sch.types typeName (.enum values) }
    | some (typeName, Sum.inr rawDef) =>
      .ok { sch with types := objInsert sch.types typeName (.composite (jsTrim rawDef).asString) }
  else
    match searchCreateTable s with
    | none =>
      if startsWithCI "CREATE TABLE".data s then
        .error ("Incomplete or invalid CREATE TABLE statement: " ++ (s.take 50).asString ++ "...")
      else .ok sch
    | some (tableName, columnPart) =>
      if jsTrim columnPart = [] then
        .error ("Table '" ++ tableName ++ "' has no columns defined")
      else
        let frags := ((splitCols columnPart).map jsTrim).filter
          (fun f => ¬ isConstraintFrag f)
        if frags = [] then
          .error ("Table '" ++ tableName ++ "' has no valid column definitions")
        else
          match parseColumns tableName frags with
          | .error e => .error e
          | .ok cols => .ok { sch with tables := objInsert sch.tables tableName cols }

/-- Process all raw statements in order. -/
def parseStatements : Schema → List (List Char) → Except String Schema
  | sch, [] => .ok sch
  | sch, stmt :: rest => do
    let sch' ← parseOneStatement sch stmt
    parseStatements sch' rest

/-- The schema parser, translated from the source's `parseSchema`. -/
def parseSchema (statement : String) : Except String Schema :=
  let cleaned := jsTrim (removeQuotes (stripComments statement.data))
  if cleaned = [] then .ok ⟨[], []⟩
  else
    let opens := (cleaned.filter (· = '(')).length
    let closes := (cleaned.filter (· = ')')).length
    if opens ≠ closes then
      .error ("Unbalanced parentheses: " ++ toString opens ++ " opening, " ++
        toString closes ++ " closing")
    else
      parseStatements ⟨[], []⟩ (((splitStmts cleaned).map jsTrim).filter (· ≠ []))

/-! ## Diff engine -/

/-- Per-entry processing of the type-change phase.  For each type of the
new schema present in the old one: enumerated new types compare value
lists positionally over the indices of the old list (an index past the
new list's end reads `undefined` and therefore mismatches) and then add
the trailing new values; if the old definition is composite while the new
one is enumerated, reading `.values.length` of the old definition throws
a `TypeError`; a composite new type whose old counterpart differs (or is
enumerated, whose `.definition` reads `undefined`) emits an error comment
and breaks the loop. -/
def typeChangeCmds (oldTypes : List (String × TypeDef)) :
    List (String × TypeDef) → Except String (List String)
  | [] => .ok []
  | (typeName, newType) :: rest =>
    match objGet oldTypes typeName with
    | none => typeChangeCmds oldTypes rest
    | some oldType =>
      match newType, oldType with
      | .enum newVals, .enum oldVals =>
        let mismatches := ((List.range oldVals.length).filter
          (fun i => oldVals.get? i ≠ newVals.get? i)).map
          (fun _ => "-- ERROR: Cannot modify existing enum value in " ++ typeName ++ "\n")
        let adds := (newVals.drop oldVals.length).map
          (fun v => "ALTER TYPE " ++ typeName ++ " ADD VALUE '" ++ v ++ "';")
        (typeChangeCmds oldTypes rest).map (fun cs => mismatches ++ adds ++ cs)
      | .enum _, .composite _ =>
        .error "Cannot read properties of undefined (reading 'length')"
      | .composite newDef, .composite oldDef =>
        if newDef ≠ oldDef then
          .ok ["-- ERROR: Composite type " ++ typeName ++ " definition changed"]
        else typeChangeCmds oldTypes rest
      | .composite _, .enum _ =>
        .ok ["-- ERROR: Composite type " ++ typeName ++ " definition changed"]

/-- Column similarity between two tables, translated from the source's
`columnSimilarity` helper: both lists empty gives 1, exactly one empty
gives 0, otherwise the Jaccard ratio of the column-name sets, forced to 0
when the intersection has fewer than 3 names and the ratio is below
0.7. -/
def columnSimilarity (oldCols newCols : List Column) : ℚ :=
  if oldCols.length = 0 ∧ newCols.length = 0 then 1
  else if oldCols.length = 0 ∨ newCols.length = 0 then 0
  else
    let oldNames := (oldCols.map (·.name)).dedup
    let newNames := (newCols.map (·.name)).dedup
    let inter := (oldNames.filter (fun n => newNames.contains n)).length
    let uni := (oldNames ++ newNames).dedup.length
    let similarity : ℚ := inter / uni
    if inter < 3 ∧ similarity < 7/10 then 0 else similarity

/-- Best-match loop shared by rename detection and replacement matching:
scan the new tables in order, skipping already-matched ones, and keep the
candidate whose similarity strictly exceeds the best so far and meets the
threshold. -/
def bestLoop (oldColumns : List Column) (newMatched : List String) (threshold : ℚ) :
    List (String × List Column) → ℚ → Option String → Option String
  | [], _, best => best
  | p :: rest, bestScore, best =>
    if p.1 ∈ newMatched then bestLoop oldColumns newMatched threshold rest bestScore best
    else
      let score := columnSimilarity oldColumns p.2
      if score > bestScore ∧ score ≥ threshold then
        bestLoop oldColumns newMatched threshold rest score (some p.1)
      else bestLoop oldColumns newMatched threshold rest bestScore best

/-- Search the unmatched new tables for the best column-similarity match
of a given old table's columns, at the given acceptance threshold. -/
def findBestMatch (oldColumns : List Column) (newTables : List (String × List Column))
    (newMatched : List String) (threshold : ℚ) : Option String :=
  bestLoop oldColumns newMatched threshold newTables 0 none

/-- Working state of rename detection: matched old/new table names, the
rename map (old name to new name, in insertion order), and the emitted
`RENAME TO` commands. -/
structure RenameState where
  oldMatched : List String
  newMatched : List String
  renameMap : List (String × String)
  cmds : List String
  deriving DecidableEq, Repr

/-- One step of rename detection for an old table: an identity match (same
name present in the new schema) marks both sides; otherwise the best
similarity match at threshold 0.5 among unused new tables, if any, is
recorded as a rename and a `RENAME TO` command is emitted. -/
def renameStep (newTables : List (String × List Column)) (st : RenameState)
    (p : String × List Column) : RenameState :=
  if (objGet newTables p.1).isSome then
    { st with oldMatched := st.oldMatched ++ [p.1], newMatched := st.newMatched ++ [p.1] }
  else
    match findBestMatch p.2 newTables st.newMatched (1/2) with
    | some best =>
      { oldMatched := st.oldMatched ++ [p.1]
        newMatched := st.newMatched ++ [best]
        renameMap := st.renameMap ++ [(p.1, best)]
        cmds := st.cmds ++ ["ALTER TABLE " ++ p.1 ++ " RENAME TO " ++ best ++ ";"] }
    | none => st

/-- Rename detection over all old tables in declaration order. -/
def renamePhase (newTables : List (String × List Column)) :
    List (String × List Column) → RenameState → RenameState
  | [], st => st
  | p :: rest, st => renamePhase newTables rest (renameStep newTables st p)

/-- Lookup in a `Map` built from a column array: the last entry wins. -/
def lastByName (cols : List Column) (n : String) : Option Column :=
  cols.reverse.find? (fun c => c.name == n)

/-- Resolve a (possibly renamed) new table name to the old table name:
the first rename-map entry targeting it, else the name itself. -/
def resolveOldName (renameMap : List (String × String)) (tableName : String) : String :=
  match renameMap.find? (fun q => q.2 == tableName) with
  | some q => q.1
  | none => tableName

/-- Add-column pass of a matched table: a new column with no old
counterpart that is `NOT NULL` without a (truthy) default raises the
fatal diff error; otherwise an `ADD COLUMN` command is emitted. -/
def addColumnCmds (tableName : String) (oldColumns : List Column) :
    List Column → Except String (List String)
  | [] => .ok []
  | c :: rest =>
    match lastByName oldColumns c.name with
    | some _ => addColumnCmds tableName oldColumns rest
    | none =>
      if c.notNull ∧ ¬ truthyStr c.defaultValue then
        .error ("New column " ++ tableName ++ "." ++ c.name ++ " is NOT NULL without default")
      else
        let d0 := c.name ++ " " ++ c.type
        let d1 := match c.defaultValue with
          | some dv => if dv ≠ "" then d0 ++ " DEFAULT " ++ dv else d0
          | none => d0
        let d2 := if c.notNull then d1 ++ " NOT NULL" else d1
        (addColumnCmds tableName oldColumns rest).map
          (fun cs => ("ALTER TABLE " ++ tableName ++ " ADD COLUMN " ++ d2 ++ ";") :: cs)

/-- Strip a trailing `PRIMARY KEY` qualifier preceded by whitespace, as
the case-sensitive anchored regex replacement on the new type text. -/
def stripPK (t : String) : String :=
  match stripExact "YEK YRAMIRP".data t.data.reverse with
  | none => t
  | some r2 =>
    match r2 with
    | [] => t
    | c :: _ => if jsWs c then ((r2.dropWhile jsWs).reverse).asString else t

/-- The numeric-family type names that cast to boolean via a comparison
with zero. -/
def numericFamily : List String :=
  ["SMALLINT", "INTEGER", "BIGINT", "DECIMAL", "NUMERIC", "REAL",
   "DOUBLE PRECISION", "SERIAL", "BIGSERIAL"]

/-- Modify-column pass for one new column that has an old counterpart:
type change (with default drop/re-apply, an optional `USING` clause for
boolean targets, and primary-key constraint adjustments), else default
change, plus an independent not-null change. -/
def modifyColumnCmds (tableName : String) (oldColumns : List Column) (c : Column) :
    List String :=
  match lastByName oldColumns c.name with
  | none => []
  | some oldCol =>
    let main :=
      if c.type ≠ oldCol.type then
        let dropDef :=
          if truthyStr oldCol.defaultValue then
            ["ALTER TABLE " ++ tableName ++ " ALTER COLUMN " ++ c.name ++ " DROP DEFAULT;"]
          else []
        let ty := stripPK c.type
        let base := "ALTER TABLE " ++ tableName ++ " ALTER COLUMN " ++ c.name ++ " TYPE " ++ ty
        let oldTypeUpper := upStr oldCol.type
        let newTypeUpper := upStr ty
        let alterCmd :=
          if newTypeUpper = "BOOLEAN" then
            if startsWithExact "VARCHAR".data oldTypeUpper.data ∨ oldTypeUpper = "TEXT" then
              base ++ " USING CASE WHEN " ++ c.name ++ " = 'true' THEN true ELSE false END"
            else if numericFamily.contains oldTypeUpper then
              base ++ " USING " ++ c.name ++ " != 0"
            else
              base ++ " USING " ++ c.name ++ "::boolean"
          else base
        let setDef :=
          if truthyStr c.defaultValue then
            ["ALTER TABLE " ++ tableName ++ " ALTER COLUMN " ++ c.name ++ " SET DEFAULT " ++
              c.defaultValue.getD "" ++ ";"]
          else []
        let dropPk :=
          if hasSub "PRIMARY KEY".data oldCol.type.data then
            ["ALTER TABLE " ++ tableName ++ " DROP CONSTRAINT IF EXISTS " ++ tableName ++ "_pkey;"]
          else []
        let addPk :=
          if hasSub "PRIMARY KEY".data c.type.data then
            ["ALTER TABLE " ++ tableName ++ " ADD PRIMARY KEY (" ++ c.name ++ ");"]
          else []
        dropDef ++ [alterCmd ++ ";"] ++ setDef ++ dropPk ++ addPk
      else if c.defaultValue ≠ oldCol.defaultValue then
        if truthyStr c.defaultValue then
          ["ALTER TABLE " ++ tableName ++ " ALTER COLUMN " ++ c.name ++ " SET DEFAULT " ++
            c.defaultValue.getD "" ++ ";"]
        else
          ["ALTER TABLE " ++ tableName ++ " ALTER COLUMN " ++ c.name ++ " DROP DEFAULT;"]
      else []
    let nullCmds :=
      if c.notNull ≠ oldCol.notNull then
        ["ALTER TABLE " ++ tableName ++ " ALTER COLUMN " ++ c.name ++
          (if c.notNull then " SET NOT NULL;" else " DROP NOT NULL;")]
      else []
    main ++ nullCmds

/-- Drop-column pass: old columns absent from the new column list, in old
declaration order. -/
def dropColumnCmds (tableName : String) (newColumns oldColumns : List Column) :
    List String :=
  oldColumns.filterMap (fun oc =>
    if newColumns.any (fun c => c.name == oc.name) then none
    else some ("ALTER TABLE " ++ tableName ++ " DROP COLUMN " ++ oc.name ++ ";"))

/-- Column-change phase over the new tables that were matched (by
identity or rename), resolving each through the rename map. -/
def tableChangeCmds (oldTables : List (String × List Column))
    (renameMap : List (String × String)) (newMatched : List String) :
    List (String × List Column) → Except String (List String)
  | [] => .ok []
  | (tableName, newColumns) :: rest =>
    if tableName ∈ newMatched then
      let oldTableName := resolveOldName renameMap tableName
      let oldColumns := (objGet oldTables oldTableName).getD []
      do
        let adds ← addColumnCmds tableName oldColumns newColumns
        let mods := newColumns.flatMap (modifyColumnCmds tableName oldColumns)
        let drops := dropColumnCmds tableName newColumns oldColumns
        let more ← tableChangeCmds oldTables renameMap newMatched rest
        return adds ++ mods ++ drops ++ more
    else tableChangeCmds oldTables renameMap newMatched rest

/-- Creation commands for new types (only enumerated types are
materialized), before new tables. -/
def createTypeCmds (oldTypes newTypes : List (String × TypeDef)) : List String :=
  newTypes.filterMap (fun p =>
    if (objGet oldTypes p.1).isSome then none
    else match p.2 with
      | .enum vals =>
        some ("CREATE TYPE " ++ p.1 ++ " AS ENUM (" ++
          ", ".intercalate (vals.map (fun v => "'" ++ v ++ "'")) ++ ");")
      | .composite _ => none)

/-- Replacement matching: old tables not already matched are paired with
the best-scoring unmatched new table at the lower threshold 0.3.  The
matched sets are not updated by this phase. -/
def replLoop (newTables : List (String × List Column)) (newMatched oldMatched : List String) :
    List (String × List Column) → List (String × String)
  | [] => []
  | p :: rest =>
    if p.1 ∈ oldMatched then replLoop newTables newMatched oldMatched rest
    else
      match findBestMatch p.2 newTables newMatched (3/10) with
      | some b => (p.1, b) :: replLoop newTables newMatched oldMatched rest
      | none => replLoop newTables newMatched oldMatched rest

/-- The inline column definition text used by `CREATE TABLE` output. -/
def colDefStr (c : Column) : String :=
  let d0 := "  " ++ c.name ++ " " ++ c.type
  let d1 := match c.defaultValue with
    | some dv => if dv ≠ "" then d0 ++ " DEFAULT " ++ dv else d0
    | none => d0
  if c.notNull then d1 ++ " NOT NULL" else d1

/-- Creation phase for unmatched new tables, with a data-migration
comment and `INSERT ... SELECT` over the common column names when the
table was selected as a replacement target. -/
def createTableCmds (oldTables : List (String × List Column)) (newMatched : List String)
    (replacements : List (String × String)) (newTables : List (String × List Column)) :
    List String :=
  newTables.flatMap (fun p =>
    if p.1 ∈ newMatched then []
    else
      let create := "CREATE TABLE " ++ p.1 ++ " (\n" ++
        ",\n".intercalate (p.2.map colDefStr) ++ "\n);"
      let migration :=
        match replacements.find? (fun q => q.2 == p.1) with
        | none => []
        | some q =>
          let oldCols := (objGet oldTables q.1).getD []
          let matching := (p.2.filter (fun c => (lastByName oldCols c.name).isSome)).map (·.name)
          if matching.length > 0 then
            let cl := ", ".intercalate matching
            ["-- Migrate data from '" ++ q.1 ++ "' to '" ++ p.1 ++ "'",
             "INSERT INTO " ++ p.1 ++ " (" ++ cl ++ ") SELECT " ++ cl ++ " FROM " ++ q.1 ++ ";"]
          else []
      create :: migration)

/-- Drop detection: old tables never marked as matched get a caution
comment and a `DROP TABLE`, in old declaration order. -/
def dropTableCmds (oldMatched : List String) (oldTables : List (String × List Column)) :
    List String :=
  oldTables.flatMap (fun p =>
    if p.1 ∈ oldMatched then []
    else
      ["-- CAUTION: This will permanently delete table '" ++ p.1 ++ "' and all its data!",
       "DROP TABLE " ++ p.1 ++ ";"])

/-- The initial, everything-unmatched rename state. -/
def initialRenameState : RenameState := ⟨[], [], [], []⟩

/-- The diff engine, translated from the source's
`generateSchemaAltersInternal`: type changes, rename detection, column
changes for matched tables, new type creation, replacement matching, new
table creation, and drop detection, appending to one running command
list.  A thrown error aborts the whole diff. -/
def generateSchemaAltersInternal (oldSchema newSchema : Schema) :
    Except String (List String) := do
  let typeCmds ← typeChangeCmds oldSchema.types newSchema.types
  let rst := renamePhase newSchema.tables oldSchema.tables initialRenameState
  let tblCmds ← tableChangeCmds oldSchema.tables rst.renameMap rst.newMatched newSchema.tables
  let newTypeCmds := createTypeCmds oldSchema.types newSchema.types
  let repl := replLoop newSchema.tables rst.newMatched rst.oldMatched oldSchema.tables
  let createCmds := createTableCmds oldSchema.tables rst.newMatched repl newSchema.tables
  let dropCmds := dropTableCmds rst.oldMatched oldSchema.tables
  return typeCmds ++ rst.cmds ++ tblCmds ++ newTypeCmds ++ createCmds ++ dropCmds

/-- The boundary operation, translated from the source's
`generateSchemaAlters`: parse both inputs, treat a fully empty parse of a
non-blank input as an early single-line error, delegate to the diff
engine, and convert any raised error into a single error-comment line. -/
def generateSchemaAlters (oldStatement newStatement : String) : List String :=
  match parseSchema oldStatement with
  | .error e => ["-- ERROR: " ++ e]
  | .ok oldSchema =>
    match parseSchema newStatement with
    | .error e => ["-- ERROR: " ++ e]
    | .ok newSchema =>
      if oldSchema.tables = [] ∧ oldSchema.types = [] ∧ jsTrim oldStatement.data ≠ [] then
        ["-- ERROR: Old schema appears to be invalid or incomplete. No valid CREATE TABLE or CREATE TYPE statements found."]
      else if newSchema.tables = [] ∧ newSchema.types = [] ∧ jsTrim newStatement.data ≠ [] then
        ["-- ERROR: New schema appears to be invalid or incomplete. No valid CREATE TABLE or CREATE TYPE statements found."]
      else
        match generateSchemaAltersInternal oldSchema newSchema with
        | .ok cmds => cmds
        | .error e => ["-- ERROR: " ++ e]

/-! ## Specification-side definitions

These definitions follow the wording of the specification (not the code)
and are compared against the code-derived definitions above. -/

/-- The set of column names of a table, as the specification's "set of
column names on each side". -/
def nameSet (cols : List Column) : Finset String := (cols.map (·.name)).toFinset

/-- The similarity function as worded by the specification: both empty
gives 1, exactly one empty gives 0, otherwise the ratio of the
intersection size to the union size of the column-name sets, forced to 0
unless the intersection has at least 3 names or the ratio is at least
0.7. -/
def simSpec (oldCols newCols : List Column) : ℚ :=
  if oldCols.length = 0 ∧ newCols.length = 0 then 1
  else if oldCols.length = 0 ∨ newCols.length = 0 then 0
  else if ((nameSet oldCols) ∩ (nameSet newCols)).card < 3 ∧
      (((nameSet oldCols) ∩ (nameSet newCols)).card : ℚ) /
        (((nameSet oldCols) ∪ (nameSet newCols)).card : ℚ) < 7/10 then 0
  else (((nameSet oldCols) ∩ (nameSet newCols)).card : ℚ) /
    (((nameSet oldCols) ∪ (nameSet newCols)).card : ℚ)

/-! ## General helper lemmas -/

theorem contains_eq_mem (l : List String) (a : String) :
    l.contains a = true ↔ a ∈ l := by
  induction l with
  | nil => simp
  | cons h t ih =>
    simp only [List.contains_cons, Bool.or_eq_true, beq_iff_eq, List.mem_cons]
    constructor
    · rintro (rfl | hm)
      · exact Or.inl rfl
      · exact Or.inr (ih.mp hm)
    · rintro (rfl | hm)
      · exact Or.inl rfl
      · exact Or.inr (ih.mpr hm)

theorem objGet_eq_some_of_mem {α : Type} (l : List (String × α)) (k : String) (v : α)
    (hnd : (l.map Prod.fst).Nodup) (hm : (k, v) ∈ l) : objGet l k = some v := by
  induction l with
  | nil => simp at hm
  | cons p rest ih =>
    simp only [List.map_cons, List.nodup_cons] at hnd
    rcases List.mem_cons.mp hm with h | h
    · subst h
      simp [objGet, List.find?]
    · have hne : p.1 ≠ k := by
        intro he
        exact hnd.1 (he ▸ (List.mem_map.mpr ⟨(k, v), h, rfl⟩))
      have := ih hnd.2 h
      simp only [objGet, List.find?] at this ⊢
      rw [show (p.1 == k) = false from beq_eq_false_iff_ne.mpr hne]
      exact this

theorem objGet_isSome_of_mem {α : Type} (l : List (String × α)) (p : String × α)
    (hm : p ∈ l) : (objGet l p.1).isSome = true := by
  induction l with
  | nil => simp at hm
  | cons q rest ih =>
    rcases List.mem_cons.mp hm with h | h
    · subst h
      simp [objGet, List.find?]
    · simp only [objGet, List.find?]
      cases hq : (q.1 == p.1)
      · simpa [objGet] using ih h
      · simp

theorem objGet_isSome_iff {α : Type} (l : List (String × α)) (k : String) :
    (objGet l k).isSome = true ↔ ∃ v, (k, v) ∈ l := by
  constructor
  · intro h
    rcases ho : l.find? (fun p => p.1 == k) with _ | p
    · rw [objGet, ho] at h
      simp at h
    · have hpk := List.find?_some ho
      have hmem := List.mem_of_find?_eq_some ho
      exact ⟨p.2, by rw [← beq_iff_eq.mp hpk]; exact hmem⟩
  · rintro ⟨v, hv⟩
    exact objGet_isSome_of_mem l (k, v) hv

theorem lastByName_isSome (cols : List Column) (c : Column) (hm : c ∈ cols) :
    (lastByName cols c.name).isSome = true := by
  unfold lastByName
  rw [List.find?_isSome]
  exact ⟨c, List.mem_reverse.mpr hm, by simp⟩

theorem find?_name_eq_of_nodup (l : List Column) (c : Column)
    (hnd : (l.map Column.name).Nodup) (hm : c ∈ l) :
    l.find? (fun x => x.name == c.name) = some c := by
  induction l with
  | nil => simp at hm
  | cons h t ih =>
    simp only [List.map_cons, List.nodup_cons] at hnd
    rcases List.mem_cons.mp hm with he | he
    · subst he
      simp [List.find?]
    · have hne : h.name ≠ c.name := by
        intro heq
        exact hnd.1 (heq ▸ List.mem_map.mpr ⟨c, he, rfl⟩)
      simp only [List.find?]
      rw [show (h.name == c.name) = false from beq_eq_false_iff_ne.mpr hne]
      exact ih hnd.2 he

theorem lastByName_eq_of_nodup (cols : List Column) (c : Column)
    (hnd : (cols.map Column.name).Nodup) (hm : c ∈ cols) :
    lastByName cols c.name = some c := by
  unfold lastByName
  exact find?_name_eq_of_nodup _ _ (by rw [List.map_reverse]; exact List.nodup_reverse.mpr hnd)
    (List.mem_reverse.mpr hm)

/-! ## Claim C6: the column-similarity function -/

theorem dedup_filter_contains_length (a b : List String) :
    ((a.dedup.filter (fun n => b.dedup.contains n)).length : ℕ) =
      (a.toFinset ∩ b.toFinset).card := by
  have hnd : (a.dedup.filter (fun n => b.dedup.contains n)).Nodup :=
    (List.nodup_dedup a).filter _
  have : (a.dedup.filter (fun n => b.dedup.contains n)).toFinset =
      a.toFinset ∩ b.toFinset := by
    apply Finset.ext
    intro x
    simp only [List.mem_toFinset, List.mem_filter, List.mem_dedup, Finset.mem_inter,
      contains_eq_mem]
  calc (a.dedup.filter (fun n => b.dedup.contains n)).length
      = (a.dedup.filter (fun n => b.dedup.contains n)).dedup.length := by
        rw [List.dedup_eq_self.mpr hnd]
    _ = (a.dedup.filter (fun n => b.dedup.contains n)).toFinset.card :=
        (List.card_toFinset _).symm
    _ = (a.toFinset ∩ b.toFinset).card := by rw [this]

theorem dedup_append_dedup_length (a b : List String) :
    ((a.dedup ++ b.dedup).dedup.length : ℕ) = (a.toFinset ∪ b.toFinset).card := by
  have : (a.dedup ++ b.dedup).toFinset = a.toFinset ∪ b.toFinset := by
    apply Finset.ext
    intro x
    simp only [List.mem_toFinset, List.mem_append, List.mem_dedup, Finset.mem_union]
  rw [← this, List.card_toFinset]

theorem columnSimilarity_eq_simSpec (a b : List Column) :
    columnSimilarity a b = simSpec a b := by
  unfold columnSimilarity simSpec nameSet
  by_cases h1 : a.length = 0 ∧ b.length = 0
  · rw [if_pos h1, if_pos h1]
  · by_cases h2 : a.length = 0 ∨ b.length = 0
    · rw [if_neg h1, if_neg h1, if_pos h2, if_pos h2]
    · rw [if_neg h1, if_neg h1, if_neg h2, if_neg h2]
      have e1 := dedup_filter_contains_length (a.map (·.name)) (b.map (·.name))
      have e2 := dedup_append_dedup_length (a.map (·.name)) (b.map (·.name))
      dsimp only
      rw [e1, e2]

theorem nameSet_nonempty (a : List Column) (h : ¬ a.length = 0) :
    (nameSet a).Nonempty := by
  rcases a with _ | ⟨c, rest⟩
  · simp at h
  · exact ⟨c.name, by simp [nameSet]⟩

theorem simSpec_nonneg (a b : List Column) : 0 ≤ simSpec a b := by
  unfold simSpec
  split
  · norm_num
  · split
    · norm_num
    · split
      · norm_num
      · positivity

theorem simSpec_le_one (a b : List Column) : simSpec a b ≤ 1 := by
  unfold simSpec
  split
  · norm_num
  · split
    · norm_num
    · rename_i h1 h2
      have hI : ((nameSet a) ∩ (nameSet b)).card ≤ ((nameSet a) ∪ (nameSet b)).card :=
        Finset.card_le_card (le_trans Finset.inter_subset_left Finset.subset_union_left)
      have hU : 0 < ((nameSet a) ∪ (nameSet b)).card := by
        apply Finset.card_pos.mpr
        rcases not_or.mp (by tauto : ¬ (a.length = 0 ∨ b.length = 0)) with ⟨ha, _⟩
        exact (nameSet_nonempty a ha).mono Finset.subset_union_left
      have hdiv : (((nameSet a) ∩ (nameSet b)).card : ℚ) /
          (((nameSet a) ∪ (nameSet b)).card : ℚ) ≤ 1 := by
        rw [div_le_one (by exact_mod_cast hU)]
        exact_mod_cast hI
      split
      · norm_num
      · exact hdiv

theorem simSpec_comm (a b : List Column) : simSpec a b = simSpec b a := by
  unfold simSpec
  simp only [Finset.inter_comm (nameSet a) (nameSet b),
    Finset.union_comm (nameSet a) (nameSet b)]
  by_cases h1 : a.length = 0 <;> by_cases h2 : b.length = 0 <;>
    simp [h1, h2]

/-- C6: the column-similarity function equals its specification — both
lists empty gives 1, exactly one empty gives 0, otherwise the ratio I/U
of the column-name sets' intersection and union sizes, forced to 0 when
I < 3 and I/U < 0.7; the result always lies in [0,1]; and the function is
symmetric.  The rename and replacement thresholds appear only in the
callers (`renameStep` at 1/2 and `replLoop` at 3/10), not here. -/
theorem C6_columnSimilarity_spec (a b : List Column) :
    columnSimilarity a b = simSpec a b ∧
    0 ≤ columnSimilarity a b ∧ columnSimilarity a b ≤ 1 ∧
    columnSimilarity a b = columnSimilarity b a := by
  refine ⟨columnSimilarity_eq_simSpec a b, ?_, ?_, ?_⟩
  · rw [columnSimilarity_eq_simSpec]; exact simSpec_nonneg a b
  · rw [columnSimilarity_eq_simSpec]; exact simSpec_le_one a b
  · rw [columnSimilarity_eq_simSpec, columnSimilarity_eq_simSpec, simSpec_comm]

/-! ## Claim C8: empty enum value list -/

/-- C8: contrary to the claim (and to the parser's own dead error branch
announcing `ENUM type '<name>' has no values`), a `CREATE TYPE ... AS
ENUM ()` statement does not raise: the enum alternative of the type regex
requires at least one character inside the parentheses, so the statement
falls through to the composite alternative and parses as a composite type
whose definition text is `ENUM ()`. -/
theorem C8_empty_enum_parsed_as_composite :
    parseSchema "CREATE TYPE mood AS ENUM ();" =
      .ok ⟨[("mood", TypeDef.composite "ENUM ()")], []⟩ := by rfl

/-! ## Claim C2: the boundary operation catches all raised errors -/

/-- C2: the boundary operation is a total function (it returns a list for
every pair of input strings), and every raised error — from parsing the
old input, from parsing the new input, or from the diff — is converted
into a single-element result holding only the error-comment string, with
no partial command list alongside it. -/
theorem C2_boundary_catches_errors (oldText newText : String) :
    (∀ e, parseSchema oldText = .error e →
      generateSchemaAlters oldText newText = ["-- ERROR: " ++ e]) ∧
    (∀ o e, parseSchema oldText = .ok o → parseSchema newText = .error e →
      generateSchemaAlters oldText newText = ["-- ERROR: " ++ e]) ∧
    (∀ o n e, parseSchema oldText = .ok o → parseSchema newText = .ok n →
      ¬ (o.tables = [] ∧ o.types = [] ∧ jsTrim oldText.data ≠ []) →
      ¬ (n.tables = [] ∧ n.types = [] ∧ jsTrim newText.data ≠ []) →
      generateSchemaAltersInternal o n = .error e →
      generateSchemaAlters oldText newText = ["-- ERROR: " ++ e]) := by
  refine ⟨?_, ?_, ?_⟩
  · intro e he
    unfold generateSchemaAlters
    rw [he]
  · intro o e ho he
    unfold generateSchemaAlters
    rw [ho, he]
  · intro o n e ho hn h1 h2 hd
    unfold generateSchemaAlters
    rw [ho, hn]
    simp only [if_neg h1, if_neg h2, hd]

/-- Witness for C2 at concrete inputs: an old-side parse error, a
new-side parse error, and a diff error each collapse to the single
error-comment line. -/
theorem C2_boundary_catches_errors_witness :
    generateSchemaAlters "(" "" =
      ["-- ERROR: Unbalanced parentheses: 1 opening, 0 closing"] ∧
    generateSchemaAlters "" "(" =
      ["-- ERROR: Unbalanced parentheses: 1 opening, 0 closing"] ∧
    generateSchemaAlters "CREATE TABLE t (a INT);"
        "CREATE TABLE t (a INT, b INT NOT NULL);" =
      ["-- ERROR: New column t.b is NOT NULL without default"] := by
  refine ⟨?_, ?_, ?_⟩
  · exact (C2_boundary_catches_errors "(" "").1
      "Unbalanced parentheses: 1 opening, 0 closing" (by rfl)
  · exact (C2_boundary_catches_errors "" "(").2.1 ⟨[], []⟩
      "Unbalanced parentheses: 1 opening, 0 closing" (by rfl) (by rfl)
  · exact (C2_boundary_catches_errors "CREATE TABLE t (a INT);"
      "CREATE TABLE t (a INT, b INT NOT NULL);").2.2
      ⟨[], [("t", [⟨"a", "INT", false, none⟩])]⟩
      ⟨[], [("t", [⟨"a", "INT", false, none⟩, ⟨"b", "INT", true, none⟩])]⟩
      "New column t.b is NOT NULL without default"
      (by rfl) (by rfl) (by decide) (by decide) (by rfl)

/-! ## Claim C5: diffing a schema against itself -/

theorem except_bind_ok {ε α β : Type} (a : α) (f : α → Except ε β) :
    (Except.ok a >>= f : Except ε β) = f a := rfl

theorem typeChangeCmds_all_same (oldTypes : List (String × TypeDef)) :
    ∀ l, (∀ p ∈ l, objGet oldTypes p.1 = some p.2) →
    typeChangeCmds oldTypes l = .ok [] := by
  intro l
  induction l with
  | nil => intro _; rfl
  | cons p rest ih =>
    intro h
    obtain ⟨k, d⟩ := p
    have hp := h (k, d) (List.mem_cons_self _ _)
    have hrest := ih (fun q hq => h q (List.mem_cons_of_mem _ hq))
    cases d with
    | enum vals =>
      have hfil : List.filter (fun i => decide (vals.get? i ≠ vals.get? i))
          (List.range vals.length) = [] :=
        List.filter_eq_nil_iff.mpr (fun a _ => by simp)
      simp only [typeChangeCmds, hp, hrest]
      simp only [List.drop_length, hfil]
      rfl
    | composite defn =>
      simp only [typeChangeCmds, hp]
      rw [if_neg (by simp)]
      exact hrest

theorem renamePhase_identity (newTables : List (String × List Column)) :
    ∀ (l : List (String × List Column)) (st : RenameState),
    (∀ p ∈ l, (objGet newTables p.1).isSome = true) →
    renamePhase newTables l st =
      { st with oldMatched := st.oldMatched ++ l.map Prod.fst,
                newMatched := st.newMatched ++ l.map Prod.fst } := by
  intro l
  induction l with
  | nil => intro st _; simp [renamePhase]
  | cons p rest ih =>
    intro st h
    have hp := h p (List.mem_cons_self _ _)
    have hrest := fun q hq => h q (List.mem_cons_of_mem _ hq)
    simp only [renamePhase, renameStep, hp, if_true]
    rw [ih _ hrest]
    simp [List.append_assoc]

theorem addColumnCmds_all_found (tableName : String) (oldColumns : List Column) :
    ∀ l, (∀ c ∈ l, (lastByName oldColumns c.name).isSome = true) →
    addColumnCmds tableName oldColumns l = .ok [] := by
  intro l
  induction l with
  | nil => intro _; rfl
  | cons c rest ih =>
    intro h
    obtain ⟨oc, hoc⟩ := Option.isSome_iff_exists.mp (h c (List.mem_cons_self _ _))
    simp only [addColumnCmds, hoc]
    exact ih (fun x hx => h x (List.mem_cons_of_mem _ hx))

theorem modifyColumnCmds_self (tableName : String) (cols : List Column)
    (hnd : (cols.map Column.name).Nodup) (c : Column) (hm : c ∈ cols) :
    modifyColumnCmds tableName cols c = [] := by
  have hl := lastByName_eq_of_nodup cols c hnd hm
  simp [modifyColumnCmds, hl]

theorem dropColumnCmds_self (tableName : String) (cols : List Column) :
    dropColumnCmds tableName cols cols = [] := by
  unfold dropColumnCmds
  rw [List.filterMap_eq_nil_iff]
  intro oc hoc
  have ha : cols.any (fun c => c.name == oc.name) = true :=
    List.any_eq_true.mpr ⟨oc, hoc, by simp⟩
  simp [ha]

theorem tableChangeCmds_all_same (oldTables : List (String × List Column))
    (newMatched : List String) :
    ∀ l, (∀ p ∈ l, p.1 ∈ newMatched ∧ objGet oldTables p.1 = some p.2 ∧
        (p.2.map Column.name).Nodup) →
    tableChangeCmds oldTables [] newMatched l = .ok [] := by
  intro l
  induction l with
  | nil => intro _; rfl
  | cons p rest ih =>
    intro h
    obtain ⟨t, cols⟩ := p
    obtain ⟨hmem, hget, hnd⟩ := h (t, cols) (List.mem_cons_self _ _)
    have hrest := ih (fun q hq => h q (List.mem_cons_of_mem _ hq))
    have hadds := addColumnCmds_all_found t cols cols
      (fun c hc => lastByName_isSome cols c hc)
    have hmods : cols.flatMap (modifyColumnCmds t cols) = [] :=
      List.flatMap_eq_nil_iff.mpr (fun c hc => modifyColumnCmds_self t cols hnd c hc)
    have hdrops := dropColumnCmds_self t cols
    simp only [tableChangeCmds, if_pos hmem]
    have hres : resolveOldName [] t = t := rfl
    rw [hres, hget]
    simp only [Option.getD_some, hadds, except_bind_ok, hrest, hmods, hdrops]
    rfl

theorem createTypeCmds_self (l : List (String × TypeDef)) :
    createTypeCmds l l = [] := by
  unfold createTypeCmds
  rw [List.filterMap_eq_nil_iff]
  intro p hp
  simp [objGet_isSome_of_mem l p hp]

theorem replLoop_all_matched (newTables : List (String × List Column))
    (newMatched oldMatched : List String) :
    ∀ l, (∀ p ∈ l, p.1 ∈ oldMatched) →
    replLoop newTables newMatched oldMatched l = [] := by
  intro l
  induction l with
  | nil => intro _; rfl
  | cons p rest ih =>
    intro h
    simp only [replLoop, if_pos (h p (List.mem_cons_self _ _))]
    exact ih (fun q hq => h q (List.mem_cons_of_mem _ hq))

theorem createTableCmds_all_matched (oldTables : List (String × List Column))
    (newMatched : List String) (repl : List (String × String)) :
    ∀ l, (∀ p ∈ l, p.1 ∈ newMatched) →
    createTableCmds oldTables newMatched repl l = [] := by
  intro l h
  unfold createTableCmds
  rw [List.flatMap_eq_nil_iff]
  intro p hp
  simp [if_pos (h p hp)]

theorem dropTableCmds_all_matched (oldMatched : List String) :
    ∀ l, (∀ p ∈ l, p.1 ∈ oldMatched) → dropTableCmds oldMatched l = [] := by
  intro l h
  unfold dropTableCmds
  rw [List.flatMap_eq_nil_iff]
  intro p hp
  simp [if_pos (h p hp)]

/-- Structural validity needed for the round-trip property: unique type
keys and table keys (guaranteed for parsed schemas, which store both as
string-keyed objects) and per-table unique column names (NOT guaranteed
by the parser). -/
def selfDiffOk (s : Schema) : Prop :=
  (s.types.map Prod.fst).Nodup ∧ (s.tables.map Prod.fst).Nodup ∧
  ∀ p ∈ s.tables, (p.2.map Column.name).Nodup

instance (s : Schema) : Decidable (selfDiffOk s) := by
  unfold selfDiffOk
  infer_instance

/-- C5 (amended): diffing a schema against itself yields the empty
command list, provided every table's column names are pairwise distinct
(and the type/table keys are unique, as parsed objects guarantee).  The
unqualified claim fails: see the counterexample with a duplicated column
name. -/
theorem C5_self_diff (s : Schema) (h : selfDiffOk s) :
    generateSchemaAltersInternal s s = .ok [] := by
  obtain ⟨ht, htb, hcols⟩ := h
  have h1 : typeChangeCmds s.types s.types = .ok [] :=
    typeChangeCmds_all_same s.types s.types
      (fun p hp => objGet_eq_some_of_mem _ _ _ ht hp)
  have hrst : renamePhase s.tables s.tables initialRenameState =
      { initialRenameState with
        oldMatched := [] ++ s.tables.map Prod.fst
        newMatched := [] ++ s.tables.map Prod.fst } :=
    renamePhase_identity s.tables s.tables initialRenameState
      (fun p hp => objGet_isSome_of_mem _ p hp)
  have hkeys : ∀ p ∈ s.tables, p.1 ∈ s.tables.map Prod.fst :=
    fun p hp => List.mem_map.mpr ⟨p, hp, rfl⟩
  have h2 : tableChangeCmds s.tables [] (s.tables.map Prod.fst) s.tables = .ok [] :=
    tableChangeCmds_all_same s.tables (s.tables.map Prod.fst) s.tables
      (fun p hp => ⟨hkeys p hp, objGet_eq_some_of_mem _ _ _ htb hp, hcols p hp⟩)
  have h3 := createTypeCmds_self s.types
  have h4 := replLoop_all_matched s.tables (s.tables.map Prod.fst)
    (s.tables.map Prod.fst) s.tables hkeys
  have h5 := createTableCmds_all_matched s.tables (s.tables.map Prod.fst) [] s.tables hkeys
  have h6 := dropTableCmds_all_matched (s.tables.map Prod.fst) s.tables hkeys
  unfold generateSchemaAltersInternal
  rw [h1, except_bind_ok, hrst]
  simp only [List.nil_append, initialRenameState]
  rw [h2, except_bind_ok]
  rw [h3, h4, h5, h6]
  rfl

/-- Witness for C5 at a concrete schema with an enum type and a
two-column table. -/
theorem C5_self_diff_witness :
    selfDiffOk ⟨[("mood", TypeDef.enum ["sad", "ok"])],
      [("person", [⟨"id", "SERIAL PRIMARY KEY", false, none⟩,
                   ⟨"name", "VARCHAR(100)", false, none⟩])]⟩ ∧
    generateSchemaAltersInternal
      ⟨[("mood", TypeDef.enum ["sad", "ok"])],
        [("person", [⟨"id", "SERIAL PRIMARY KEY", false, none⟩,
                     ⟨"name", "VARCHAR(100)", false, none⟩])]⟩
      ⟨[("mood", TypeDef.enum ["sad", "ok"])],
        [("person", [⟨"id", "SERIAL PRIMARY KEY", false, none⟩,
                     ⟨"name", "VARCHAR(100)", false, none⟩])]⟩ = .ok [] :=
  ⟨by decide, C5_self_diff _ (by decide)⟩

/-- Counterexample to C5 as stated: a schema whose table `t` declares the
column name `a` twice (which the parser accepts, e.g. from
`CREATE TABLE t (a INT, a TEXT);`) diffs against itself to a nonempty
command list, because the last-wins column `Map` pairs the first `a`
with the second one's type. -/
theorem C5_counterexample :
    generateSchemaAltersInternal
      ⟨[], [("t", [⟨"a", "INT", false, none⟩, ⟨"a", "TEXT", false, none⟩])]⟩
      ⟨[], [("t", [⟨"a", "INT", false, none⟩, ⟨"a", "TEXT", false, none⟩])]⟩ =
      .ok ["ALTER TABLE t ALTER COLUMN a TYPE INT;"] ∧
    ["ALTER TABLE t ALTER COLUMN a TYPE INT;"] ≠ ([] : List String) :=
  ⟨by rfl, by simp⟩

/-! ## Claim C3: positional enum comparison -/

/-- Safety of one matched type pair for the type-change phase: the phase
neither raises nor stops early on it — both enumerated, or composite with
identical definitions.  (Old definition first, new second.) -/
def entrySafe : TypeDef → TypeDef → Bool
  | .enum _, .enum _ => true
  | .composite s', .composite s => s' == s
  | _, _ => false

/-- The error comments predicted for a shared enum type by the amended
claim: one per index of the OLD value list at which the new list has run
out or differs. -/
def enumMismatchComments (typeName : String) (ov nv : List String) : List String :=
  ((List.range ov.length).filter
    (fun i => decide (¬ (i < nv.length ∧ ov.get? i = nv.get? i)))).map
    (fun _ => "-- ERROR: Cannot modify existing enum value in " ++ typeName ++ "\n")

/-- The `ADD VALUE` commands for a shared enum type: one per new value at
an index at or beyond the old list's length, in list order. -/
def enumAddCmds (typeName : String) (ov nv : List String) : List String :=
  (nv.drop ov.length).map
    (fun v => "ALTER TYPE " ++ typeName ++ " ADD VALUE '" ++ v ++ "';")

theorem mismatch_filter_eq (ov nv : List String) :
    List.filter (fun i => decide (ov.get? i ≠ nv.get? i)) (List.range ov.length) =
    List.filter (fun i => decide (¬ (i < nv.length ∧ ov.get? i = nv.get? i)))
      (List.range ov.length) := by
  apply List.filter_congr
  intro i hi
  have hio : i < ov.length := List.mem_range.mp hi
  rw [decide_eq_decide]
  obtain ⟨x, hx⟩ : ∃ x, ov.get? i = some x :=
    ⟨ov.get ⟨i, hio⟩, List.get?_eq_get hio⟩
  by_cases hin : i < nv.length
  · obtain ⟨y, hy⟩ : ∃ y, nv.get? i = some y :=
      ⟨nv.get ⟨i, hin⟩, List.get?_eq_get hin⟩
    simp [hx, hy, hin]
  · have hnone : nv.get? i = none := by
      rw [List.get?_eq_none]
      exact le_of_not_lt hin
    simp [hx, hnone, hin, ← List.get?_eq_getElem?]

theorem typeChangeCmds_ok_of_safe (oldTypes : List (String × TypeDef)) :
    ∀ l, (∀ p ∈ l, ∀ od, objGet oldTypes p.1 = some od → entrySafe od p.2 = true) →
    ∃ out, typeChangeCmds oldTypes l = .ok out := by
  intro l
  induction l with
  | nil => exact fun _ => ⟨[], rfl⟩
  | cons p rest ih =>
    intro h
    obtain ⟨k, d⟩ := p
    obtain ⟨out, hout⟩ := ih (fun q hq => h q (List.mem_cons_of_mem _ hq))
    cases hg : objGet oldTypes k with
    | none => exact ⟨out, by simp only [typeChangeCmds, hg]; exact hout⟩
    | some od =>
      have hsafe := h (k, d) (List.mem_cons_self _ _) od hg
      cases d with
      | enum nv =>
        cases od with
        | enum ov =>
          exact ⟨_, by simp only [typeChangeCmds, hg, hout]; rfl⟩
        | composite s => simp [entrySafe] at hsafe
      | composite s =>
        cases od with
        | enum ov => simp [entrySafe] at hsafe
        | composite s' =>
          have hss : s' = s := by simpa [entrySafe] using hsafe
          subst hss
          exact ⟨out, by simp only [typeChangeCmds, hg]; rw [if_neg (by simp)]; exact hout⟩

theorem typeChangeCmds_enum_decomp (oldTypes : List (String × TypeDef)) :
    ∀ (l : List (String × TypeDef)) (t : String) (ov nv : List String),
    (∀ p ∈ l, ∀ od, objGet oldTypes p.1 = some od → entrySafe od p.2 = true) →
    (t, TypeDef.enum nv) ∈ l →
    objGet oldTypes t = some (TypeDef.enum ov) →
    ∃ pre post, typeChangeCmds oldTypes l =
      .ok (pre ++ enumMismatchComments t ov nv ++ enumAddCmds t ov nv ++ post) := by
  intro l
  induction l with
  | nil => intro t ov nv _ hmem; simp at hmem
  | cons p rest ih =>
    intro t ov nv h hmem hget
    rcases List.mem_cons.mp hmem with he | he
    · obtain ⟨out, hout⟩ := typeChangeCmds_ok_of_safe oldTypes rest
        (fun q hq => h q (List.mem_cons_of_mem _ hq))
      subst he
      refine ⟨[], out, ?_⟩
      simp only [typeChangeCmds, hget, hout]
      simp only [Except.map, List.nil_append]
      rw [mismatch_filter_eq]
      rfl
    · obtain ⟨k, d⟩ := p
      obtain ⟨pre, post, hrec⟩ := ih t ov nv
        (fun q hq => h q (List.mem_cons_of_mem _ hq)) he hget
      cases hg : objGet oldTypes k with
      | none =>
        exact ⟨pre, post, by simp only [typeChangeCmds, hg]; exact hrec⟩
      | some od =>
        have hsafe := h (k, d) (List.mem_cons_self _ _) od hg
        cases d with
        | enum nv' =>
          cases od with
          | enum ov' =>
            refine ⟨(((List.range ov'.length).filter
                (fun i => decide (ov'.get? i ≠ nv'.get? i))).map
                (fun _ => "-- ERROR: Cannot modify existing enum value in " ++ k ++ "\n")) ++
                ((nv'.drop ov'.length).map
                  (fun v => "ALTER TYPE " ++ k ++ " ADD VALUE '" ++ v ++ "';")) ++ pre,
              post, ?_⟩
            simp only [typeChangeCmds, hg, hrec]
            simp only [Except.map, List.append_assoc]
          | composite s => simp [entrySafe] at hsafe
        | composite s =>
          cases od with
          | enum ov' => simp [entrySafe] at hsafe
          | composite s' =>
            have hss : s' = s := by simpa [entrySafe] using hsafe
            subst hss
            exact ⟨pre, post,
              by simp only [typeChangeCmds, hg]; rw [if_neg (by simp)]; exact hrec⟩

/-- C3 (amended): for schemas sharing a type name that is enumerated on
both sides — in a diff whose type phase is not stopped early by another
type (`entrySafe`) and which returns a command list — the emitted block
for that type consists of one error comment per index of the OLD value
list at which the new list has run out or differs (so comparison runs up
to the old length, not the shorter length: shrinking an enum also emits
error comments), followed by one `ADD VALUE` per new value at an index at
or beyond the old length, in order; and the appended-enum instance
`('a','b')` to `('a','b','c')` yields exactly one `ADD VALUE 'c'` command
and nothing else. -/
theorem C3_enum_positional :
    (∀ (o n : Schema) (cmds : List String) (t : String) (ov nv : List String),
      generateSchemaAltersInternal o n = .ok cmds →
      (∀ p ∈ n.types, ∀ od, objGet o.types p.1 = some od → entrySafe od p.2 = true) →
      (t, TypeDef.enum nv) ∈ n.types →
      objGet o.types t = some (TypeDef.enum ov) →
      ∃ pre post, cmds =
        pre ++ enumMismatchComments t ov nv ++ enumAddCmds t ov nv ++ post) ∧
    generateSchemaAltersInternal ⟨[("t", TypeDef.enum ["a", "b"])], []⟩
      ⟨[("t", TypeDef.enum ["a", "b", "c"])], []⟩ =
      .ok ["ALTER TYPE t ADD VALUE 'c';"] := by
  constructor
  · intro o n cmds t ov nv hok hsafe hmem hget
    obtain ⟨pre, post, htc⟩ :=
      typeChangeCmds_enum_decomp o.types n.types t ov nv hsafe hmem hget
    unfold generateSchemaAltersInternal at hok
    rw [htc, except_bind_ok] at hok
    dsimp only at hok
    rcases h2 : tableChangeCmds o.tables
        (renamePhase n.tables o.tables initialRenameState).renameMap
        (renamePhase n.tables o.tables initialRenameState).newMatched n.tables with e | tbl
    · rw [h2] at hok
      cases hok
    · rw [h2, except_bind_ok] at hok
      simp only [pure, Except.pure, Except.ok.injEq] at hok
      exact ⟨pre, post ++ ((renamePhase n.tables o.tables initialRenameState).cmds ++
        (tbl ++ (createTypeCmds o.types n.types ++
          (createTableCmds o.tables (renamePhase n.tables o.tables initialRenameState).newMatched
            (replLoop n.tables (renamePhase n.tables o.tables initialRenameState).newMatched
              (renamePhase n.tables o.tables initialRenameState).oldMatched o.tables) n.tables ++
            dropTableCmds (renamePhase n.tables o.tables initialRenameState).oldMatched o.tables)))),
        by rw [← hok]; simp [List.append_assoc]⟩
  · rfl

/-- Witness for the universal part of C3 at the appended-enum instance:
the decomposition exhibits the empty mismatch block and the single
`ADD VALUE 'c'` command. -/
theorem C3_enum_positional_witness :
    ∃ pre post, ["ALTER TYPE t ADD VALUE 'c';"] =
      pre ++ enumMismatchComments "t" ["a", "b"] ["a", "b", "c"] ++
        enumAddCmds "t" ["a", "b"] ["a", "b", "c"] ++ post :=
  C3_enum_positional.1 ⟨[("t", TypeDef.enum ["a", "b"])], []⟩
    ⟨[("t", TypeDef.enum ["a", "b", "c"])], []⟩
    ["ALTER TYPE t ADD VALUE 'c';"] "t" ["a", "b"] ["a", "b", "c"]
    (by rfl) (by decide) (by simp) (by rfl)

/-- Counterexample to C3 as stated: shrinking an enum from `('a','b')` to
`('a')` emits an error comment, although comparison "up to the shorter of
the two lengths" (with no trailing new values) predicts an empty result. -/
theorem C3_counterexample :
    generateSchemaAltersInternal ⟨[("t", TypeDef.enum ["a", "b"])], []⟩
      ⟨[("t", TypeDef.enum ["a"])], []⟩ =
      .ok ["-- ERROR: Cannot modify existing enum value in t\n"] ∧
    ["-- ERROR: Cannot modify existing enum value in t\n"] ≠ ([] : List String) :=
  ⟨by rfl, by simp⟩

/-! ## Claim C7: empty, whitespace-only and comment-only inputs -/

/-- Texts consisting only of whitespace characters and newline-terminated
line comments (`--` followed by characters that are no line terminators —
in particular no carriage return — and a closing `'\n'`).  This is the
family for which the amended claim holds; a final comment not terminated
by a newline, or one whose body reaches a `'\r'` before the newline (as
in a CRLF-terminated comment), is NOT stripped by the source's comment
regex, whose `.` matches no line terminator and which requires the
closing `'\n'`. -/
inductive CommentOnly : List Char → Prop
  | nil : CommentOnly []
  | ws {c : Char} {l : List Char} : jsWs c = true → CommentOnly l →
      CommentOnly (c :: l)
  | comment {body l : List Char} :
      (∀ c ∈ body, c ≠ '\n' ∧ jsBlockTerm c = false) → CommentOnly l →
      CommentOnly ('-' :: '-' :: (body ++ '\n' :: l))

theorem scAux_some_ne (acc l : List Char) (c : Char) (hc : c ≠ '\n')
    (hb : jsBlockTerm c = false) :
    scAux (some acc) (c :: l) = scAux (some (c :: acc)) l := by
  rw [scAux.eq_def]
  split <;> simp_all

theorem scAux_none_ws (l : List Char) (c : Char) (hc : jsWs c = true) :
    scAux none (c :: l) = c :: scAux none l := by
  rw [scAux.eq_def]
  split <;> simp_all [jsWs]

theorem scAux_comment (body : List Char)
    (hbody : ∀ c ∈ body, c ≠ '\n' ∧ jsBlockTerm c = false) :
    ∀ (acc l : List Char), scAux (some acc) (body ++ '\n' :: l) = '\n' :: scAux none l := by
  induction body with
  | nil => intro acc l; rfl
  | cons c body' ih =>
    intro acc l
    obtain ⟨h1, h2⟩ := hbody c (List.mem_cons_self _ _)
    rw [List.cons_append, scAux_some_ne acc _ c h1 h2]
    exact ih (fun x hx => hbody x (List.mem_cons_of_mem _ hx)) _ _

theorem stripComments_commentOnly {l : List Char} (h : CommentOnly l) :
    ∀ c ∈ stripComments l, jsWs c = true := by
  induction h with
  | nil => intro c hc; simp [stripComments, scAux] at hc
  | ws hw _ ih =>
    intro c hc
    rw [stripComments, scAux_none_ws _ _ hw] at hc
    rcases List.mem_cons.mp hc with rfl | hc'
    · assumption
    · exact ih c hc'
  | comment hbody _ ih =>
    intro c hc
    rename_i body l' _
    have h1 : stripComments ('-' :: '-' :: (body ++ '\n' :: l')) =
        scAux (some ['-', '-']) (body ++ '\n' :: l') := rfl
    rw [h1, scAux_comment body hbody] at hc
    rcases List.mem_cons.mp hc with rfl | hc'
    · rfl
    · exact ih c hc'

theorem jsTrim_all_ws (l : List Char) (h : ∀ c ∈ l, jsWs c = true) :
    jsTrim l = [] := by
  unfold jsTrim
  have h1 : l.dropWhile jsWs = [] :=
    List.dropWhile_eq_nil_iff.mpr h
  rw [h1]
  rfl

/-- C7 (amended): input that is empty, whitespace-only, or consists only
of whitespace and `'\n'`-TERMINATED line comments whose bodies contain no
line terminator (no carriage return in particular) parses to a schema
with empty `types` and `tables` without raising.  (A final comment not
closed by a newline, or a CRLF-terminated comment — whose `'\r'` the
regex's `.` cannot match — survives the comment-stripping regex and can
raise: see the counterexample.) -/
theorem C7_comment_only (s : String) (h : CommentOnly s.data) :
    parseSchema s = .ok ⟨[], []⟩ := by
  have hws : ∀ c ∈ removeQuotes (stripComments s.data), jsWs c = true :=
    fun c hc => stripComments_commentOnly h c (List.mem_of_mem_filter hc)
  have hclean : jsTrim (removeQuotes (stripComments s.data)) = [] :=
    jsTrim_all_ws _ hws
  simp [parseSchema, hclean]

/-- Witness for C7 on the concrete input `"-- hi\n "`, a newline-closed
comment followed by a space. -/
theorem C7_comment_only_witness : parseSchema "-- hi\n " = .ok ⟨[], []⟩ :=
  C7_comment_only "-- hi\n "
    (show CommentOnly ('-' :: '-' :: ([' ', 'h', 'i'] ++ '\n' :: [' '])) from
      CommentOnly.comment (by decide) (CommentOnly.ws (by decide) CommentOnly.nil))

/-- Counterexample to C7 as stated: the input `"-- ("` consists only of a
line comment, but since the file ends without a newline the comment is
not stripped, its parenthesis reaches the balance check, and parsing
raises instead of returning an empty schema.  Likewise the CRLF-terminated
comment `"-- (\r\n"`: the regex's `.` cannot match the carriage return,
so no match ends at the `'\n'` and the comment again survives to raise. -/
theorem C7_counterexample :
    parseSchema "-- (" = .error "Unbalanced parentheses: 1 opening, 0 closing" ∧
    parseSchema "-- (\r\n" = .error "Unbalanced parentheses: 1 opening, 0 closing" :=
  ⟨by rfl, by rfl⟩

/-! ## Claim C10: ties in best-match selection go to the earliest table -/

theorem bestLoop_le (oldCols : List Column) (matched : List String) (θ : ℚ) :
    ∀ (l : List (String × List Column)) (b : ℚ) (r : Option String),
    (∀ p ∈ l, p.1 ∉ matched → columnSimilarity oldCols p.2 ≤ b) →
    bestLoop oldCols matched θ l b r = r := by
  intro l
  induction l with
  | nil => intro b r _; rfl
  | cons p rest ih =>
    intro b r h
    by_cases hp : p.1 ∈ matched
    · simp only [bestLoop, if_pos hp]
      exact ih b r (fun q hq => h q (List.mem_cons_of_mem _ hq))
    · simp only [bestLoop, if_neg hp]
      rw [if_neg (fun hcond =>
        absurd hcond.1 (not_lt.mpr (h p (List.mem_cons_self _ _) hp)))]
      exact ih b r (fun q hq => h q (List.mem_cons_of_mem _ hq))

theorem bestLoop_first_max (oldCols : List Column) (matched : List String) (θ s : ℚ)
    (m : String) (mc : List Column) (l2 : List (String × List Column))
    (hm : m ∉ matched) (hs : columnSimilarity oldCols mc = s) (hθ : θ ≤ s)
    (h2 : ∀ p ∈ l2, p.1 ∉ matched → columnSimilarity oldCols p.2 ≤ s) :
    ∀ (l1 : List (String × List Column)) (b : ℚ) (r : Option String), b < s →
    (∀ p ∈ l1, p.1 ∉ matched → columnSimilarity oldCols p.2 < s) →
    bestLoop oldCols matched θ (l1 ++ (m, mc) :: l2) b r = some m := by
  intro l1
  induction l1 with
  | nil =>
    intro b r hb _
    simp only [List.nil_append, bestLoop, if_neg hm]
    rw [if_pos ⟨by rw [hs]; exact hb, by rw [hs]; exact hθ⟩]
    rw [hs]
    exact bestLoop_le oldCols matched θ l2 s (some m) h2
  | cons p rest ih =>
    intro b r hb h1
    simp only [List.cons_append, bestLoop]
    by_cases hp : p.1 ∈ matched
    · rw [if_pos hp]
      exact ih b r hb (fun q hq => h1 q (List.mem_cons_of_mem _ hq))
    · rw [if_neg hp]
      have hlt : columnSimilarity oldCols p.2 < s := h1 p (List.mem_cons_self _ _) hp
      by_cases hcond : columnSimilarity oldCols p.2 > b ∧ columnSimilarity oldCols p.2 ≥ θ
      · rw [if_pos hcond]
        exact ih _ _ hlt (fun q hq => h1 q (List.mem_cons_of_mem _ hq))
      · rw [if_neg hcond]
        exact ih b r hb (fun q hq => h1 q (List.mem_cons_of_mem _ hq))

/-- C10: in the best-match search shared by rename detection (threshold
1/2 in `renameStep`) and replacement matching (threshold 3/10 in
`replLoop`), a candidate replaces the current best only on a strictly
greater score, so when several unmatched new tables attain the same
maximal score `s` at or above the (positive) threshold, the one earliest
in new-schema declaration order is selected: if every eligible table
before `m` scores strictly below `s` and every eligible table after `m`
scores at most `s`, the search returns `m`. -/
theorem C10_earliest_tie_wins (oldCols : List Column) (matched : List String)
    (θ s : ℚ) (l1 l2 : List (String × List Column)) (m : String) (mc : List Column)
    (h0 : 0 < θ) (hm : m ∉ matched) (hs : columnSimilarity oldCols mc = s) (hθ : θ ≤ s)
    (h1 : ∀ p ∈ l1, p.1 ∉ matched → columnSimilarity oldCols p.2 < s)
    (h2 : ∀ p ∈ l2, p.1 ∉ matched → columnSimilarity oldCols p.2 ≤ s) :
    findBestMatch oldCols (l1 ++ (m, mc) :: l2) matched θ = some m :=
  bestLoop_first_max oldCols matched θ s m mc l2 hm hs hθ h2 l1 0 none
    (lt_of_lt_of_le h0 hθ) h1

/-- Old-table columns for the C10 witness. -/
def c10Old : List Column :=
  [⟨"a", "INT", false, none⟩, ⟨"b", "INT", false, none⟩,
   ⟨"c", "INT", false, none⟩, ⟨"d", "INT", false, none⟩]

/-- First tied candidate for the C10 witness (3 of 5 names shared). -/
def c10M : List Column :=
  [⟨"a", "INT", false, none⟩, ⟨"b", "INT", false, none⟩,
   ⟨"c", "INT", false, none⟩, ⟨"x", "INT", false, none⟩]

/-- Second tied candidate for the C10 witness (same score). -/
def c10N : List Column :=
  [⟨"a", "INT", false, none⟩, ⟨"b", "INT", false, none⟩,
   ⟨"c", "INT", false, none⟩, ⟨"y", "INT", false, none⟩]

theorem c10_sim_M : columnSimilarity c10Old c10M = 3/5 := by
  have h1 : ((c10Old.map (·.name)).dedup.filter
      (fun n => (c10M.map (·.name)).dedup.contains n)).length = 3 := by decide
  have h2 : ((c10Old.map (·.name)).dedup ++ (c10M.map (·.name)).dedup).dedup.length = 5 := by
    decide
  have h3 : c10Old.length = 4 := rfl
  have h4 : c10M.length = 4 := rfl
  unfold columnSimilarity
  dsimp only
  rw [h1, h2, h3, h4]
  norm_num

theorem c10_sim_N : columnSimilarity c10Old c10N = 3/5 := by
  have h1 : ((c10Old.map (·.name)).dedup.filter
      (fun n => (c10N.map (·.name)).dedup.contains n)).length = 3 := by decide
  have h2 : ((c10Old.map (·.name)).dedup ++ (c10N.map (·.name)).dedup).dedup.length = 5 := by
    decide
  have h3 : c10Old.length = 4 := rfl
  have h4 : c10N.length = 4 := rfl
  unfold columnSimilarity
  dsimp only
  rw [h1, h2, h3, h4]
  norm_num

/-- Witness for C10: two new tables tie at score 3/5 (3 shared names out
of 5) at threshold 1/2; the earlier one is selected. -/
theorem C10_earliest_tie_wins_witness :
    findBestMatch c10Old ([] ++ ("m", c10M) :: [("n", c10N)]) [] (1/2) = some "m" :=
  C10_earliest_tie_wins c10Old [] (1/2) (3/5) [] [("n", c10N)] "m" c10M
    (by norm_num) (by simp) c10_sim_M (by norm_num)
    (by simp)
    (by
      intro p hp hpm
      rcases List.mem_singleton.mp hp with rfl
      exact le_of_eq c10_sim_N)

/-! ## Claim C4: drop detection -/

theorem flatMap_congr_mem {α β : Type} (l : List α) (f g : α → List β)
    (h : ∀ a ∈ l, f a = g a) : l.flatMap f = l.flatMap g := by
  induction l with
  | nil => rfl
  | cons a rest ih =>
    simp only [List.flatMap_cons, h a (List.mem_cons_self _ _),
      ih (fun b hb => h b (List.mem_cons_of_mem _ hb))]

theorem renameStep_oldMatched_mono (newTables : List (String × List Column))
    (st : RenameState) (p : String × List Column) (t : String)
    (h : t ∈ st.oldMatched) : t ∈ (renameStep newTables st p).oldMatched := by
  unfold renameStep
  split
  · exact List.mem_append_left _ h
  · split
    · exact List.mem_append_left _ h
    · exact h

theorem renameStep_renameMap_mono (newTables : List (String × List Column))
    (st : RenameState) (p : String × List Column) (q : String × String)
    (h : q ∈ st.renameMap) : q ∈ (renameStep newTables st p).renameMap := by
  unfold renameStep
  split
  · exact h
  · split
    · exact List.mem_append_left _ h
    · exact h

theorem renamePhase_oldMatched_mono (newTables : List (String × List Column)) :
    ∀ (l : List (String × List Column)) (st : RenameState) (t : String),
    t ∈ st.oldMatched → t ∈ (renamePhase newTables l st).oldMatched := by
  intro l
  induction l with
  | nil => intro st t h; exact h
  | cons p rest ih =>
    intro st t h
    exact ih _ t (renameStep_oldMatched_mono newTables st p t h)

theorem renamePhase_renameMap_mono (newTables : List (String × List Column)) :
    ∀ (l : List (String × List Column)) (st : RenameState) (q : String × String),
    q ∈ st.renameMap → q ∈ (renamePhase newTables l st).renameMap := by
  intro l
  induction l with
  | nil => intro st q h; exact h
  | cons p rest ih =>
    intro st q h
    exact ih _ q (renameStep_renameMap_mono newTables st p q h)

theorem renameStep_spec (newTables : List (String × List Column)) (st : RenameState)
    (p : String × List Column) :
    ((objGet newTables p.1).isSome = true ∧
      renameStep newTables st p =
        { st with oldMatched := st.oldMatched ++ [p.1],
                  newMatched := st.newMatched ++ [p.1] }) ∨
    (¬ (objGet newTables p.1).isSome = true ∧ ∃ best,
      findBestMatch p.2 newTables st.newMatched (1/2) = some best ∧
      renameStep newTables st p =
        ⟨st.oldMatched ++ [p.1], st.newMatched ++ [best],
         st.renameMap ++ [(p.1, best)],
         st.cmds ++ ["ALTER TABLE " ++ p.1 ++ " RENAME TO " ++ best ++ ";"]⟩) ∨
    (¬ (objGet newTables p.1).isSome = true ∧
      findBestMatch p.2 newTables st.newMatched (1/2) = none ∧
      renameStep newTables st p = st) := by
  by_cases hid : (objGet newTables p.1).isSome = true
  · exact Or.inl ⟨hid, by unfold renameStep; rw [if_pos hid]⟩
  · rcases hb : findBestMatch p.2 newTables st.newMatched (1/2) with _ | best
    · refine Or.inr (Or.inr ⟨hid, rfl, ?_⟩)
      unfold renameStep
      rw [if_neg hid, hb]
    · refine Or.inr (Or.inl ⟨hid, best, rfl, ?_⟩)
      unfold renameStep
      rw [if_neg hid, hb]

theorem renamePhase_oldMatched_sound (newTables : List (String × List Column)) :
    ∀ (l : List (String × List Column)) (st : RenameState),
    (∀ t, t ∈ st.oldMatched →
      (objGet newTables t).isSome = true ∨ ∃ b, (t, b) ∈ st.renameMap) →
    ∀ t, t ∈ (renamePhase newTables l st).oldMatched →
      (objGet newTables t).isSome = true ∨
        ∃ b, (t, b) ∈ (renamePhase newTables l st).renameMap := by
  intro l
  induction l with
  | nil => intro st h t ht; exact (h t ht).imp id (fun ⟨b, hb⟩ => ⟨b, hb⟩)
  | cons p rest ih =>
    intro st h t ht
    refine ih (renameStep newTables st p) ?_ t ht
    intro u hu
    rcases renameStep_spec newTables st p with ⟨hid, hstep⟩ |
      ⟨hid, best, hbest, hstep⟩ | ⟨hid, hbest, hstep⟩
    · rw [hstep] at hu ⊢
      rcases List.mem_append.mp hu with h1 | h1
      · rcases h u h1 with h2 | ⟨b, hb⟩
        · exact Or.inl h2
        · exact Or.inr ⟨b, hb⟩
      · left
        rw [List.mem_singleton.mp h1]
        exact hid
    · rw [hstep] at hu ⊢
      rcases List.mem_append.mp hu with h1 | h1
      · rcases h u h1 with h2 | ⟨b, hb⟩
        · exact Or.inl h2
        · exact Or.inr ⟨b, List.mem_append_left _ hb⟩
      · have hu1 : u = p.1 := List.mem_singleton.mp h1
        subst hu1
        exact Or.inr ⟨best, List.mem_append_right _ (List.mem_singleton.mpr rfl)⟩
    · rw [hstep] at hu ⊢
      rcases h u hu with h2 | ⟨b, hb⟩
      · exact Or.inl h2
      · exact Or.inr ⟨b, hb⟩

theorem renamePhase_identity_complete (newTables : List (String × List Column)) :
    ∀ (l : List (String × List Column)) (st : RenameState)
      (p : String × List Column), p ∈ l → (objGet newTables p.1).isSome = true →
    p.1 ∈ (renamePhase newTables l st).oldMatched := by
  intro l
  induction l with
  | nil => intro st p hp; simp at hp
  | cons q rest ih =>
    intro st p hp hid
    rcases List.mem_cons.mp hp with he | he
    · subst he
      refine renamePhase_oldMatched_mono newTables rest _ p.1 ?_
      unfold renameStep
      rw [if_pos hid]
      exact List.mem_append_right _ (List.mem_singleton.mpr rfl)
    · exact ih _ p he hid

theorem renamePhase_renameMap_in_oldMatched (newTables : List (String × List Column)) :
    ∀ (l : List (String × List Column)) (st : RenameState),
    (∀ t b, (t, b) ∈ st.renameMap → t ∈ st.oldMatched) →
    ∀ t b, (t, b) ∈ (renamePhase newTables l st).renameMap →
      t ∈ (renamePhase newTables l st).oldMatched := by
  intro l
  induction l with
  | nil => intro st h t b htb; exact h t b htb
  | cons p rest ih =>
    intro st h t b htb
    refine ih (renameStep newTables st p) ?_ t b htb
    intro u c huc
    rcases renameStep_spec newTables st p with ⟨hid, hstep⟩ |
      ⟨hid, best, hbest, hstep⟩ | ⟨hid, hbest, hstep⟩
    · rw [hstep] at huc ⊢
      exact List.mem_append_left _ (h u c huc)
    · rw [hstep] at huc ⊢
      rcases List.mem_append.mp huc with h1 | h1
      · exact List.mem_append_left _ (h u c h1)
      · have hu1 : u = p.1 := congrArg Prod.fst (List.mem_singleton.mp h1)
        rw [hu1]
        exact List.mem_append_right _ (List.mem_singleton.mpr rfl)
    · rw [hstep] at huc ⊢
      exact h u c huc

theorem any_fst_eq_iff (l : List (String × String)) (t : String) :
    l.any (fun q => q.1 == t) = true ↔ ∃ b, (t, b) ∈ l := by
  rw [List.any_eq_true]
  constructor
  · rintro ⟨q, hq, hqe⟩
    exact ⟨q.2, by rw [← beq_iff_eq.mp hqe]; exact hq⟩
  · rintro ⟨b, hb⟩
    exact ⟨(t, b), hb, by simp⟩

theorem oldMatched_characterisation (o n : Schema) (p : String × List Column)
    (hp : p ∈ o.tables) :
    p.1 ∈ (renamePhase n.tables o.tables initialRenameState).oldMatched ↔
      ((objGet n.tables p.1).isSome = true ∨
        (renamePhase n.tables o.tables initialRenameState).renameMap.any
          (fun q => q.1 == p.1) = true) := by
  rw [any_fst_eq_iff]
  constructor
  · exact renamePhase_oldMatched_sound n.tables o.tables initialRenameState
      (fun t ht => by simp [initialRenameState] at ht) p.1
  · rintro (hid | ⟨b, hb⟩)
    · exact renamePhase_identity_complete n.tables o.tables initialRenameState p hp hid
    · exact renamePhase_renameMap_in_oldMatched n.tables o.tables initialRenameState
        (fun t c htc => by simp [initialRenameState] at htc) p.1 b hb

/-- C4 (amended): in a successful diff, the caution comment and
`DROP TABLE` pairs form the final block of the output, contain exactly
the old tables that were matched neither by identity (same name present
in the new schema) nor by rename detection, in old-schema declaration
order — and being the source of a phase-5 replacement match does NOT
exempt a table from the drop (contrary to the claim; the replacement is a
data-migration hint, not a match mark). -/
theorem C4_drop_detection (o n : Schema) (cmds : List String)
    (hok : generateSchemaAltersInternal o n = .ok cmds) :
    ∃ pre, cmds = pre ++ o.tables.flatMap (fun p =>
      if (objGet n.tables p.1).isSome = true ∨
          (renamePhase n.tables o.tables initialRenameState).renameMap.any
            (fun q => q.1 == p.1) = true
      then []
      else ["-- CAUTION: This will permanently delete table '" ++ p.1 ++
              "' and all its data!",
            "DROP TABLE " ++ p.1 ++ ";"]) := by
  have hdrop : dropTableCmds (renamePhase n.tables o.tables initialRenameState).oldMatched
      o.tables = o.tables.flatMap (fun p =>
        if (objGet n.tables p.1).isSome = true ∨
            (renamePhase n.tables o.tables initialRenameState).renameMap.any
              (fun q => q.1 == p.1) = true
        then []
        else ["-- CAUTION: This will permanently delete table '" ++ p.1 ++
                "' and all its data!",
              "DROP TABLE " ++ p.1 ++ ";"]) := by
    unfold dropTableCmds
    refine flatMap_congr_mem _ _ _ ?_
    intro p hp
    by_cases hm : p.1 ∈ (renamePhase n.tables o.tables initialRenameState).oldMatched
    · rw [if_pos hm, if_pos ((oldMatched_characterisation o n p hp).mp hm)]
    · rw [if_neg hm, if_neg (fun hc => hm ((oldMatched_characterisation o n p hp).mpr hc))]
  rcases h1 : typeChangeCmds o.types n.types with e | tc
  · unfold generateSchemaAltersInternal at hok
    rw [h1] at hok
    cases hok
  · unfold generateSchemaAltersInternal at hok
    rw [h1, except_bind_ok] at hok
    dsimp only at hok
    rcases h2 : tableChangeCmds o.tables
        (renamePhase n.tables o.tables initialRenameState).renameMap
        (renamePhase n.tables o.tables initialRenameState).newMatched n.tables with e | tbl
    · rw [h2] at hok
      cases hok
    · rw [h2, except_bind_ok] at hok
      simp only [pure, Except.pure, Except.ok.injEq] at hok
      refine ⟨tc ++ (renamePhase n.tables o.tables initialRenameState).cmds ++ tbl ++
        createTypeCmds o.types n.types ++
        createTableCmds o.tables (renamePhase n.tables o.tables initialRenameState).newMatched
          (replLoop n.tables (renamePhase n.tables o.tables initialRenameState).newMatched
            (renamePhase n.tables o.tables initialRenameState).oldMatched o.tables) n.tables, ?_⟩
      rw [← hok, ← hdrop]

/-- Witness for C4: a diff with one genuinely dropped table (`test`) and
one renamed table exhibits the final caution-and-drop block. -/
theorem C4_drop_detection_witness :
    ∃ pre, ["ALTER TABLE a RENAME TO b;",
      "-- CAUTION: This will permanently delete table 'z' and all its data!",
      "DROP TABLE z;"] = pre ++
      (⟨[], [("a", [⟨"x1", "INT", false, none⟩, ⟨"x2", "INT", false, none⟩,
          ⟨"x3", "INT", false, none⟩]), ("z", [⟨"q", "INT", false, none⟩])]⟩ :
          Schema).tables.flatMap (fun p =>
        if (objGet ([("b", [⟨"x1", "INT", false, none⟩, ⟨"x2", "INT", false, none⟩,
            ⟨"x3", "INT", false, none⟩])] : List (String × List Column)) p.1).isSome = true ∨
            (renamePhase
              [("b", [⟨"x1", "INT", false, none⟩, ⟨"x2", "INT", false, none⟩,
                ⟨"x3", "INT", false, none⟩])]
              [("a", [⟨"x1", "INT", false, none⟩, ⟨"x2", "INT", false, none⟩,
                ⟨"x3", "INT", false, none⟩]), ("z", [⟨"q", "INT", false, none⟩])]
              initialRenameState).renameMap.any (fun q => q.1 == p.1) = true
        then []
        else ["-- CAUTION: This will permanently delete table '" ++ p.1 ++
                "' and all its data!",
              "DROP TABLE " ++ p.1 ++ ";"]) :=
  C4_drop_detection
    ⟨[], [("a", [⟨"x1", "INT", false, none⟩, ⟨"x2", "INT", false, none⟩,
        ⟨"x3", "INT", false, none⟩]), ("z", [⟨"q", "INT", false, none⟩])]⟩
    ⟨[], [("b", [⟨"x1", "INT", false, none⟩, ⟨"x2", "INT", false, none⟩,
        ⟨"x3", "INT", false, none⟩])]⟩
    ["ALTER TABLE a RENAME TO b;",
     "-- CAUTION: This will permanently delete table 'z' and all its data!",
     "DROP TABLE z;"]
    (by with_unfolding_all rfl)

/-- Counterexample to C4 as stated: old table `a` is selected as the
source of a phase-5 replacement match for new table `b` (similarity 3/10,
as the emitted `INSERT ... SELECT` migration shows), yet it still
receives the caution comment and `DROP TABLE a;` — replacement sources
are not exempt from dropping. -/
theorem C4_counterexample :
    generateSchemaAltersInternal
      ⟨[], [("a", [⟨"x1", "INT", false, none⟩, ⟨"x2", "INT", false, none⟩,
          ⟨"x3", "INT", false, none⟩, ⟨"x4", "INT", false, none⟩,
          ⟨"x5", "INT", false, none⟩, ⟨"x6", "INT", false, none⟩,
          ⟨"x7", "INT", false, none⟩])]⟩
      ⟨[], [("b", [⟨"x1", "INT", false, none⟩, ⟨"x2", "INT", false, none⟩,
          ⟨"x3", "INT", false, none⟩, ⟨"y4", "INT", false, none⟩,
          ⟨"y5", "INT", false, none⟩, ⟨"y6", "INT", false, none⟩])]⟩ =
    .ok ["CREATE TABLE b (\n  x1 INT,\n  x2 INT,\n  x3 INT,\n  y4 INT,\n  y5 INT,\n  y6 INT\n);",
         "-- Migrate data from 'a' to 'b'",
         "INSERT INTO b (x1, x2, x3) SELECT x1, x2, x3 FROM a;",
         "-- CAUTION: This will permanently delete table 'a' and all its data!",
         "DROP TABLE a;"] ∧
    replLoop [("b", [⟨"x1", "INT", false, none⟩, ⟨"x2", "INT", false, none⟩,
        ⟨"x3", "INT", false, none⟩, ⟨"y4", "INT", false, none⟩,
        ⟨"y5", "INT", false, none⟩, ⟨"y6", "INT", false, none⟩])] [] []
      [("a", [⟨"x1", "INT", false, none⟩, ⟨"x2", "INT", false, none⟩,
        ⟨"x3", "INT", false, none⟩, ⟨"x4", "INT", false, none⟩,
        ⟨"x5", "INT", false, none⟩, ⟨"x6", "INT", false, none⟩,
        ⟨"x7", "INT", false, none⟩])] = [("a", "b")] :=
  ⟨by with_unfolding_all rfl, by with_unfolding_all rfl⟩

/-! ## Claim C1: raising behaviour of the diff engine -/

/-- Does a type definition use the enumerated variant? -/
def isEnumTD : TypeDef → Bool
  | .enum _ => true
  | .composite _ => false

/-- Is the type of this name composite in the given type mapping? -/
def oldIsComposite (oldTypes : List (String × TypeDef)) (k : String) : Bool :=
  match objGet oldTypes k with
  | some (.composite _) => true
  | _ => false

/-- The `TypeError` message raised when the type phase reads
`.values.length` of a composite old definition. -/
def typeErrMsg : String := "Cannot read properties of undefined (reading 'length')"

/-- The fatal diff error message for a new `NOT NULL` column without
default. -/
def notNullMsg (tableName colName : String) : String :=
  "New column " ++ tableName ++ "." ++ colName ++ " is NOT NULL without default"

theorem typeChangeCmds_ok_of_no_clash (oldTypes : List (String × TypeDef)) :
    ∀ l, (∀ p ∈ l, ¬ (isEnumTD p.2 = true ∧ oldIsComposite oldTypes p.1 = true)) →
    ∃ out, typeChangeCmds oldTypes l = .ok out := by
  intro l
  induction l with
  | nil => exact fun _ => ⟨[], rfl⟩
  | cons p rest ih =>
    intro h
    obtain ⟨k, d⟩ := p
    cases hg : objGet oldTypes k with
    | none =>
      obtain ⟨out, hout⟩ := ih (fun q hq => h q (List.mem_cons_of_mem _ hq))
      exact ⟨out, by simp only [typeChangeCmds, hg]; exact hout⟩
    | some od =>
      cases d with
      | enum nv =>
        cases od with
        | enum ov =>
          obtain ⟨out, hout⟩ := ih (fun q hq => h q (List.mem_cons_of_mem _ hq))
          exact ⟨_, by simp only [typeChangeCmds, hg, hout]; rfl⟩
        | composite s =>
          exact absurd ⟨rfl, by simp [oldIsComposite, hg]⟩
            (h (k, TypeDef.enum nv) (List.mem_cons_self _ _))
      | composite s =>
        cases od with
        | enum ov =>
          exact ⟨["-- ERROR: Composite type " ++ k ++ " definition changed"],
            by simp only [typeChangeCmds, hg]⟩
        | composite s' =>
          by_cases hne : s ≠ s'
          · exact ⟨_, by simp only [typeChangeCmds, hg]; rw [if_pos hne]⟩
          · obtain ⟨out, hout⟩ := ih (fun q hq => h q (List.mem_cons_of_mem _ hq))
            exact ⟨out, by simp only [typeChangeCmds, hg]; rw [if_neg hne]; exact hout⟩

theorem typeChangeCmds_error_shape (oldTypes : List (String × TypeDef)) :
    ∀ l e, typeChangeCmds oldTypes l = .error e → e = typeErrMsg := by
  intro l
  induction l with
  | nil => intro e he; cases he
  | cons p rest ih =>
    intro e he
    obtain ⟨k, d⟩ := p
    cases hg : objGet oldTypes k with
    | none =>
      rw [show typeChangeCmds oldTypes ((k, d) :: rest) = typeChangeCmds oldTypes rest
        from by simp only [typeChangeCmds, hg]] at he
      exact ih e he
    | some od =>
      cases d with
      | enum nv =>
        cases od with
        | enum ov =>
          simp only [typeChangeCmds, hg] at he
          rcases hx : typeChangeCmds oldTypes rest with e' | out
          · rw [hx] at he
            cases he
            exact ih _ hx
          · rw [hx] at he
            cases he
        | composite s =>
          simp only [typeChangeCmds, hg] at he
          cases he
          rfl
      | composite s =>
        cases od with
        | enum ov =>
          simp only [typeChangeCmds, hg] at he
          cases he
        | composite s' =>
          simp only [typeChangeCmds, hg] at he
          split at he
          · cases he
          · exact ih e he

theorem addColumnCmds_error_shape (tableName : String) (oldColumns : List Column) :
    ∀ l e, addColumnCmds tableName oldColumns l = .error e →
    ∃ cn, e = notNullMsg tableName cn := by
  intro l
  induction l with
  | nil => intro e he; cases he
  | cons c rest ih =>
    intro e he
    cases hlb : lastByName oldColumns c.name with
    | some oc =>
      simp only [addColumnCmds, hlb] at he
      exact ih e he
    | none =>
      simp only [addColumnCmds, hlb] at he
      split at he
      · cases he
        exact ⟨c.name, rfl⟩
      · rcases hx : addColumnCmds tableName oldColumns rest with e' | out
        · rw [hx] at he
          cases he
          exact ih _ hx
        · rw [hx] at he
          cases he

theorem addColumnCmds_ok_of_no_bad (tableName : String) (oldColumns : List Column) :
    ∀ l, (∀ c ∈ l, lastByName oldColumns c.name = none →
      ¬ (c.notNull = true ∧ truthyStr c.defaultValue = false)) →
    ∃ out, addColumnCmds tableName oldColumns l = .ok out := by
  intro l
  induction l with
  | nil => exact fun _ => ⟨[], rfl⟩
  | cons c rest ih =>
    intro h
    obtain ⟨out, hout⟩ := ih (fun x hx => h x (List.mem_cons_of_mem _ hx))
    cases hlb : lastByName oldColumns c.name with
    | some oc => exact ⟨out, by simp only [addColumnCmds, hlb]; exact hout⟩
    | none =>
      have hng : ¬ (c.notNull = true ∧ ¬ truthyStr c.defaultValue = true) := by
        intro ⟨h1, h2⟩
        exact h c (List.mem_cons_self _ _) hlb ⟨h1, Bool.not_eq_true _ ▸ h2⟩
      exact ⟨_, by simp only [addColumnCmds, hlb]; rw [if_neg hng, hout]; rfl⟩

theorem addColumnCmds_error_of_bad (tableName : String) (oldColumns : List Column) :
    ∀ l (c : Column), c ∈ l → lastByName oldColumns c.name = none →
    c.notNull = true → truthyStr c.defaultValue = false →
    ∃ e, addColumnCmds tableName oldColumns l = .error e := by
  intro l
  induction l with
  | nil => intro c hc; simp at hc
  | cons c' rest ih =>
    intro c hc hlb hnn hdf
    cases hlb' : lastByName oldColumns c'.name with
    | some oc =>
      have hcr : c ∈ rest := by
        rcases List.mem_cons.mp hc with he | he
        · subst he
          rw [hlb] at hlb'
          cases hlb'
        · exact he
      obtain ⟨e, he⟩ := ih c hcr hlb hnn hdf
      exact ⟨e, by simp only [addColumnCmds, hlb']; exact he⟩
    | none =>
      by_cases hbad : c'.notNull = true ∧ ¬ truthyStr c'.defaultValue = true
      · exact ⟨notNullMsg tableName c'.name,
          by simp only [addColumnCmds, hlb']; rw [if_pos hbad]; rfl⟩
      · have hcr : c ∈ rest := by
          rcases List.mem_cons.mp hc with he | he
          · subst he
            exact absurd ⟨hnn, by rw [hdf]; simp⟩ hbad
          · exact he
        obtain ⟨e, he⟩ := ih c hcr hlb hnn hdf
        exact ⟨e, by simp only [addColumnCmds, hlb']; rw [if_neg hbad, he]; rfl⟩

theorem tableChangeCmds_error_shape (oldTables : List (String × List Column))
    (renameMap : List (String × String)) (newMatched : List String) :
    ∀ l e, tableChangeCmds oldTables renameMap newMatched l = .error e →
    ∃ tn cn, e = notNullMsg tn cn := by
  intro l
  induction l with
  | nil => intro e he; cases he
  | cons p rest ih =>
    intro e he
    obtain ⟨t, cols⟩ := p
    by_cases hm : t ∈ newMatched
    · simp only [tableChangeCmds, if_pos hm] at he
      rcases ha : addColumnCmds t
          ((objGet oldTables (resolveOldName renameMap t)).getD []) cols with e' | adds
      · rw [ha] at he
        cases he
        obtain ⟨cn, hcn⟩ := addColumnCmds_error_shape _ _ _ _ ha
        exact ⟨t, cn, hcn⟩
      · rw [ha, except_bind_ok] at he
        rcases hr : tableChangeCmds oldTables renameMap newMatched rest with e' | out
        · rw [hr] at he
          cases he
          exact ih _ hr
        · rw [hr, except_bind_ok] at he
          cases he
    · simp only [tableChangeCmds, if_neg hm] at he
      exact ih e he

theorem tableChangeCmds_ok_of_no_bad (oldTables : List (String × List Column))
    (renameMap : List (String × String)) (newMatched : List String) :
    ∀ l, (∀ p ∈ l, p.1 ∈ newMatched → ∀ c ∈ p.2,
      lastByName ((objGet oldTables (resolveOldName renameMap p.1)).getD []) c.name = none →
      ¬ (c.notNull = true ∧ truthyStr c.defaultValue = false)) →
    ∃ out, tableChangeCmds oldTables renameMap newMatched l = .ok out := by
  intro l
  induction l with
  | nil => exact fun _ => ⟨[], rfl⟩
  | cons p rest ih =>
    intro h
    obtain ⟨t, cols⟩ := p
    obtain ⟨out, hout⟩ := ih (fun q hq => h q (List.mem_cons_of_mem _ hq))
    by_cases hm : t ∈ newMatched
    · obtain ⟨adds, hadds⟩ := addColumnCmds_ok_of_no_bad t
        ((objGet oldTables (resolveOldName renameMap t)).getD []) cols
        (h (t, cols) (List.mem_cons_self _ _) hm)
      exact ⟨_, by simp only [tableChangeCmds, if_pos hm]
                   rw [hadds, except_bind_ok, hout, except_bind_ok]; rfl⟩
    · exact ⟨out, by simp only [tableChangeCmds, if_neg hm]; exact hout⟩

theorem tableChangeCmds_error_of_bad (oldTables : List (String × List Column))
    (renameMap : List (String × String)) (newMatched : List String) :
    ∀ l (t : String) (cols : List Column) (c : Column),
    (t, cols) ∈ l → t ∈ newMatched → c ∈ cols →
    lastByName ((objGet oldTables (resolveOldName renameMap t)).getD []) c.name = none →
    c.notNull = true → truthyStr c.defaultValue = false →
    ∃ e, tableChangeCmds oldTables renameMap newMatched l = .error e := by
  intro l
  induction l with
  | nil => intro t cols c h; simp at h
  | cons p rest ih =>
    intro t cols c hmem hm hc hlb hnn hdf
    obtain ⟨t', cols'⟩ := p
    rcases List.mem_cons.mp hmem with he | he
    · rw [Prod.mk.injEq] at he
      obtain ⟨rfl, rfl⟩ := he
      obtain ⟨e, hae⟩ := addColumnCmds_error_of_bad t
        ((objGet oldTables (resolveOldName renameMap t)).getD []) cols c hc hlb hnn hdf
      exact ⟨e, by simp only [tableChangeCmds, if_pos hm]; rw [hae]; rfl⟩
    · by_cases hm' : t' ∈ newMatched
      · rcases ha : addColumnCmds t'
            ((objGet oldTables (resolveOldName renameMap t')).getD []) cols' with e' | adds
        · exact ⟨e', by simp only [tableChangeCmds, if_pos hm']; rw [ha]; rfl⟩
        · obtain ⟨e, hr⟩ := ih t cols c he hm hc hlb hnn hdf
          exact ⟨e, by simp only [tableChangeCmds, if_pos hm']
                       rw [ha, except_bind_ok, hr]; rfl⟩
      · obtain ⟨e, hr⟩ := ih t cols c he hm hc hlb hnn hdf
        exact ⟨e, by simp only [tableChangeCmds, if_neg hm']; exact hr⟩

theorem except_bind_err {ε α β : Type} (e : ε) (f : α → Except ε β) :
    (Except.error e >>= f : Except ε β) = Except.error e := rfl

/-- C1 (amended): for structurally valid schemas the diff raises in
exactly two situations, not one.  (a) If no new type is enumerated while
its old namesake is composite, and no matched table has a new `NOT NULL`
column without default and without old counterpart, the diff returns a
command list.  (b) Every raised error is either the `TypeError` from
reading `.values.length` of a composite old type (a raising case the
claim omits) or the claimed `New column <table>.<column> is NOT NULL
without default` message.  (c) Whenever the type phase succeeds and some
matched table has such a bad new column, the diff does raise. -/
theorem C1_diff_raising (o n : Schema) :
    ((∀ p ∈ n.types, ¬ (isEnumTD p.2 = true ∧ oldIsComposite o.types p.1 = true)) →
     (∀ p ∈ n.tables,
        p.1 ∈ (renamePhase n.tables o.tables initialRenameState).newMatched →
        ∀ c ∈ p.2,
        lastByName ((objGet o.tables (resolveOldName
          (renamePhase n.tables o.tables initialRenameState).renameMap p.1)).getD [])
          c.name = none →
        ¬ (c.notNull = true ∧ truthyStr c.defaultValue = false)) →
     ∃ cmds, generateSchemaAltersInternal o n = .ok cmds) ∧
    (∀ e, generateSchemaAltersInternal o n = .error e →
      e = typeErrMsg ∨ ∃ tn cn, e = notNullMsg tn cn) ∧
    ((∃ out, typeChangeCmds o.types n.types = .ok out) →
     (∃ p, p ∈ n.tables ∧
        p.1 ∈ (renamePhase n.tables o.tables initialRenameState).newMatched ∧
        ∃ c, c ∈ p.2 ∧
        lastByName ((objGet o.tables (resolveOldName
          (renamePhase n.tables o.tables initialRenameState).renameMap p.1)).getD [])
          c.name = none ∧
        c.notNull = true ∧ truthyStr c.defaultValue = false) →
     ∃ e, generateSchemaAltersInternal o n = .error e) := by
  refine ⟨?_, ?_, ?_⟩
  · intro h1 h2
    obtain ⟨tc, htc⟩ := typeChangeCmds_ok_of_no_clash o.types n.types h1
    obtain ⟨tbl, htbl⟩ := tableChangeCmds_ok_of_no_bad o.tables
      (renamePhase n.tables o.tables initialRenameState).renameMap
      (renamePhase n.tables o.tables initialRenameState).newMatched n.tables h2
    have hres : generateSchemaAltersInternal o n = .ok
        (tc ++ (renamePhase n.tables o.tables initialRenameState).cmds ++ tbl ++
          createTypeCmds o.types n.types ++
          createTableCmds o.tables (renamePhase n.tables o.tables initialRenameState).newMatched
            (replLoop n.tables (renamePhase n.tables o.tables initialRenameState).newMatched
              (renamePhase n.tables o.tables initialRenameState).oldMatched o.tables) n.tables ++
          dropTableCmds (renamePhase n.tables o.tables initialRenameState).oldMatched
            o.tables) := by
      unfold generateSchemaAltersInternal
      rw [htc, except_bind_ok]
      dsimp only
      rw [htbl, except_bind_ok]
      rfl
    exact ⟨_, hres⟩
  · intro e he
    unfold generateSchemaAltersInternal at he
    rcases h1 : typeChangeCmds o.types n.types with e0 | tc
    · rw [h1, except_bind_err] at he
      cases he
      exact Or.inl (typeChangeCmds_error_shape o.types n.types _ h1)
    · rw [h1, except_bind_ok] at he
      dsimp only at he
      rcases h2 : tableChangeCmds o.tables
          (renamePhase n.tables o.tables initialRenameState).renameMap
          (renamePhase n.tables o.tables initialRenameState).newMatched n.tables with e1 | tbl
      · rw [h2, except_bind_err] at he
        cases he
        exact Or.inr (tableChangeCmds_error_shape _ _ _ _ _ h2)
      · rw [h2, except_bind_ok] at he
        cases he
  · rintro ⟨out, htc⟩ ⟨p, hp, hm, c, hc, hlb, hnn, hdf⟩
    obtain ⟨e, htbl⟩ := tableChangeCmds_error_of_bad o.tables
      (renamePhase n.tables o.tables initialRenameState).renameMap
      (renamePhase n.tables o.tables initialRenameState).newMatched n.tables
      p.1 p.2 c hp hm hc hlb hnn hdf
    refine ⟨e, ?_⟩
    unfold generateSchemaAltersInternal
    rw [htc, except_bind_ok]
    dsimp only
    rw [htbl, except_bind_err]

/-- Witness for C1: an enum append plus an unchanged composite type
diffs without raising; a new `NOT NULL` column without default on a
matched table raises; and the error-shape disjunction holds for the
`TypeError` raised by the composite-to-enum schema pair. -/
theorem C1_diff_raising_witness :
    (∃ cmds, generateSchemaAltersInternal
      ⟨[("t", TypeDef.enum ["a"]), ("u", TypeDef.composite "x")], []⟩
      ⟨[("t", TypeDef.enum ["a", "b"]), ("u", TypeDef.composite "x")], []⟩ = .ok cmds) ∧
    (∃ e, generateSchemaAltersInternal
      ⟨[], [("t", [⟨"a", "INT", false, none⟩])]⟩
      ⟨[], [("t", [⟨"a", "INT", false, none⟩, ⟨"b", "INT", true, none⟩])]⟩ = .error e) ∧
    (typeErrMsg = typeErrMsg ∨ ∃ tn cn, typeErrMsg = notNullMsg tn cn) := by
  refine ⟨?_, ?_, ?_⟩
  · exact (C1_diff_raising
      ⟨[("t", TypeDef.enum ["a"]), ("u", TypeDef.composite "x")], []⟩
      ⟨[("t", TypeDef.enum ["a", "b"]), ("u", TypeDef.composite "x")], []⟩).1
      (by decide) (by decide)
  · exact (C1_diff_raising
      ⟨[], [("t", [⟨"a", "INT", false, none⟩])]⟩
      ⟨[], [("t", [⟨"a", "INT", false, none⟩, ⟨"b", "INT", true, none⟩])]⟩).2.2
      ⟨[], by rfl⟩ (by decide)
  · exact (C1_diff_raising
      ⟨[("t", TypeDef.composite "x")], []⟩
      ⟨[("t", TypeDef.enum ["a"])], []⟩).2.1
      typeErrMsg (by rfl)

/-- Counterexample to C1 as stated: a schema pair with NO tables at all
(so the claim's single raising case cannot apply) still raises, because
the type `t` is composite in the old schema and enumerated in the new
one, and the type phase reads `.values.length` of the composite old
definition. -/
theorem C1_counterexample :
    generateSchemaAltersInternal ⟨[("t", TypeDef.composite "x")], []⟩
      ⟨[("t", TypeDef.enum ["a"])], []⟩ = .error typeErrMsg ∧
    typeErrMsg ≠ notNullMsg "t" "a" :=
  ⟨by rfl, by decide⟩

/-! ## Claim C9: command sequence for a changed column type -/

/-- The `USING` clause as worded by the claim: for a boolean target, a
"not equal to zero" cast for the numeric family, a `CASE` comparison
against `'true'` for `VARCHAR`/`TEXT`, and a direct `::boolean` cast
otherwise.  The claim lists the numeric family first; the code tests
`VARCHAR`/`TEXT` first — the two agree because the conditions are
mutually exclusive. -/
def usingClauseSpec (colName oldTypeUpper : String) : String :=
  if numericFamily.contains oldTypeUpper then " USING " ++ colName ++ " != 0"
  else if startsWithExact "VARCHAR".data oldTypeUpper.data ∨ oldTypeUpper = "TEXT" then
    " USING CASE WHEN " ++ colName ++ " = 'true' THEN true ELSE false END"
  else " USING " ++ colName ++ "::boolean"

theorem numericFamily_not_varcharText (s : String) (hs : numericFamily.contains s = true) :
    ¬ (startsWithExact "VARCHAR".data s.data = true ∨ s = "TEXT") := by
  have hmem : s ∈ numericFamily := (contains_eq_mem numericFamily s).mp hs
  simp only [numericFamily, List.mem_cons, List.not_mem_nil, or_false] at hmem
  rcases hmem with rfl | rfl | rfl | rfl | rfl | rfl | rfl | rfl | rfl <;> decide

theorem usingClause_code_eq_spec (colName oldUp : String) :
    (if startsWithExact "VARCHAR".data oldUp.data = true ∨ oldUp = "TEXT" then
      " USING CASE WHEN " ++ colName ++ " = 'true' THEN true ELSE false END"
    else if numericFamily.contains oldUp = true then " USING " ++ colName ++ " != 0"
    else " USING " ++ colName ++ "::boolean") = usingClauseSpec colName oldUp := by
  unfold usingClauseSpec
  by_cases hv : startsWithExact "VARCHAR".data oldUp.data = true ∨ oldUp = "TEXT"
  · rw [if_pos hv]
    by_cases hn : numericFamily.contains oldUp = true
    · exact absurd hv (numericFamily_not_varcharText oldUp hn)
    · rw [if_neg hn, if_pos hv]
  · rw [if_neg hv]
    by_cases hn : numericFamily.contains oldUp = true
    · rw [if_pos hn, if_pos hn]
    · rw [if_neg hn, if_neg hn, if_neg hv]

/-- The three-command block the claim describes for a changed column
type: conditional `DROP DEFAULT`, the `ALTER COLUMN ... TYPE` command
with its conditional `USING` clause, conditional `SET DEFAULT`. -/
def typeChangeBlock (t : String) (c oldCol : Column) : List String :=
  (if truthyStr oldCol.defaultValue = true then
    ["ALTER TABLE " ++ t ++ " ALTER COLUMN " ++ c.name ++ " DROP DEFAULT;"] else []) ++
  ["ALTER TABLE " ++ t ++ " ALTER COLUMN " ++ c.name ++ " TYPE " ++ stripPK c.type ++
    (if upStr (stripPK c.type) = "BOOLEAN" then usingClauseSpec c.name (upStr oldCol.type)
     else "") ++ ";"] ++
  (if truthyStr c.defaultValue = true then
    ["ALTER TABLE " ++ t ++ " ALTER COLUMN " ++ c.name ++ " SET DEFAULT " ++
      c.defaultValue.getD "" ++ ";"] else [])

theorem modifyColumnCmds_type_change (t : String) (oldCols : List Column)
    (c oldCol : Column) (hlb : lastByName oldCols c.name = some oldCol)
    (hne : c.type ≠ oldCol.type) :
    ∃ tail, modifyColumnCmds t oldCols c = typeChangeBlock t c oldCol ++ tail := by
  refine ⟨(if hasSub "PRIMARY KEY".data oldCol.type.data = true then
      ["ALTER TABLE " ++ t ++ " DROP CONSTRAINT IF EXISTS " ++ t ++ "_pkey;"] else []) ++
    (if hasSub "PRIMARY KEY".data c.type.data = true then
      ["ALTER TABLE " ++ t ++ " ADD PRIMARY KEY (" ++ c.name ++ ");"] else []) ++
    (if c.notNull ≠ oldCol.notNull then
      ["ALTER TABLE " ++ t ++ " ALTER COLUMN " ++ c.name ++
        (if c.notNull then " SET NOT NULL;" else " DROP NOT NULL;")] else []), ?_⟩
  unfold modifyColumnCmds typeChangeBlock
  rw [hlb]
  dsimp only
  rw [if_pos hne]
  rw [← usingClause_code_eq_spec c.name (upStr oldCol.type)]
  by_cases hb : upStr (stripPK c.type) = "BOOLEAN"
  · rw [if_pos hb, if_pos hb]
    by_cases hv : startsWithExact "VARCHAR".data (upStr oldCol.type).data = true ∨
        upStr oldCol.type = "TEXT"
    · rw [if_pos hv, if_pos hv]
      simp [String.append_assoc, List.append_assoc]
    · rw [if_neg hv, if_neg hv]
      by_cases hn : numericFamily.contains (upStr oldCol.type) = true
      · rw [if_pos hn, if_pos hn]
        simp [String.append_assoc, List.append_assoc]
      · rw [if_neg hn, if_neg hn]
        simp [String.append_assoc, List.append_assoc]
  · rw [if_neg hb, if_neg hb]
    simp [String.append_assoc, List.append_assoc]

theorem tableChangeCmds_member_decomp (oldTables : List (String × List Column))
    (renameMap : List (String × String)) (newMatched : List String) :
    ∀ (l : List (String × List Column)) (out : List String) (t : String)
      (newCols : List Column),
    tableChangeCmds oldTables renameMap newMatched l = .ok out →
    (t, newCols) ∈ l → t ∈ newMatched →
    ∃ pre post, out = pre ++
      newCols.flatMap (modifyColumnCmds t
        ((objGet oldTables (resolveOldName renameMap t)).getD [])) ++ post := by
  intro l
  induction l with
  | nil => intro out t newCols _ hmem; simp at hmem
  | cons p rest ih =>
    intro out t newCols hok hmem hm
    obtain ⟨t', cols'⟩ := p
    by_cases hm' : t' ∈ newMatched
    · simp only [tableChangeCmds, if_pos hm'] at hok
      rcases ha : addColumnCmds t'
          ((objGet oldTables (resolveOldName renameMap t')).getD []) cols' with e | adds
      · rw [ha, except_bind_err] at hok
        cases hok
      · rw [ha, except_bind_ok] at hok
        rcases hr : tableChangeCmds oldTables renameMap newMatched rest with e | more
        · rw [hr, except_bind_err] at hok
          cases hok
        · rw [hr, except_bind_ok] at hok
          cases hok
          rcases List.mem_cons.mp hmem with he | he
          · rw [Prod.mk.injEq] at he
            obtain ⟨rfl, rfl⟩ := he
            refine ⟨adds, dropColumnCmds t newCols
              ((objGet oldTables (resolveOldName renameMap t)).getD []) ++ more, ?_⟩
            simp [List.append_assoc]
          · obtain ⟨pre, post, hdec⟩ := ih more t newCols hr he hm
            refine ⟨adds ++ cols'.flatMap (modifyColumnCmds t'
                ((objGet oldTables (resolveOldName renameMap t')).getD [])) ++
              dropColumnCmds t' cols'
                ((objGet oldTables (resolveOldName renameMap t')).getD []) ++ pre,
              post, ?_⟩
            rw [hdec]
            simp [List.append_assoc]
    · simp only [tableChangeCmds, if_neg hm'] at hok
      rcases List.mem_cons.mp hmem with he | he
      · rw [Prod.mk.injEq] at he
        exact absurd (he.1 ▸ hm) hm'
      · exact ih out t newCols hok he hm

/-- C9: for every matched table of a successful diff and every new
column with an old counterpart of a different type text, the output
contains, contiguously and in this order: a `DROP DEFAULT` command when
the old column had a (truthy) default; the `ALTER COLUMN ... TYPE`
command carrying a `USING` clause exactly when the new type with a
trailing `PRIMARY KEY` stripped is boolean — "not equal to zero" for
numeric-family old types, a `CASE` comparison against `'true'` for
`VARCHAR`/`TEXT` old types, a direct `::boolean` cast otherwise; then a
`SET DEFAULT` command when the new column specifies a (truthy)
default. -/
theorem C9_type_change_sequence (o n : Schema) (cmds : List String)
    (t : String) (newCols : List Column) (c oldCol : Column)
    (hok : generateSchemaAltersInternal o n = .ok cmds)
    (hmem : (t, newCols) ∈ n.tables)
    (hm : t ∈ (renamePhase n.tables o.tables initialRenameState).newMatched)
    (hc : c ∈ newCols)
    (hlb : lastByName ((objGet o.tables (resolveOldName
      (renamePhase n.tables o.tables initialRenameState).renameMap t)).getD [])
      c.name = some oldCol)
    (hne : c.type ≠ oldCol.type) :
    ∃ pre post, cmds = pre ++ typeChangeBlock t c oldCol ++ post := by
  unfold generateSchemaAltersInternal at hok
  rcases h1 : typeChangeCmds o.types n.types with e | tc
  · rw [h1, except_bind_err] at hok
    cases hok
  · rw [h1, except_bind_ok] at hok
    dsimp only at hok
    rcases h2 : tableChangeCmds o.tables
        (renamePhase n.tables o.tables initialRenameState).renameMap
        (renamePhase n.tables o.tables initialRenameState).newMatched n.tables with e | tbl
    · rw [h2, except_bind_err] at hok
      cases hok
    · rw [h2, except_bind_ok] at hok
      simp only [pure, Except.pure, Except.ok.injEq] at hok
      obtain ⟨pre1, post1, htbl⟩ := tableChangeCmds_member_decomp o.tables
        (renamePhase n.tables o.tables initialRenameState).renameMap
        (renamePhase n.tables o.tables initialRenameState).newMatched n.tables tbl t
        newCols h2 hmem hm
      obtain ⟨l1, l2, hcols⟩ := List.append_of_mem hc
      obtain ⟨tail, hmod⟩ := modifyColumnCmds_type_change t
        ((objGet o.tables (resolveOldName
          (renamePhase n.tables o.tables initialRenameState).renameMap t)).getD [])
        c oldCol hlb hne
      refine ⟨tc ++ (renamePhase n.tables o.tables initialRenameState).cmds ++ pre1 ++
        l1.flatMap (modifyColumnCmds t ((objGet o.tables (resolveOldName
          (renamePhase n.tables o.tables initialRenameState).renameMap t)).getD [])),
        tail ++ l2.flatMap (modifyColumnCmds t ((objGet o.tables (resolveOldName
          (renamePhase n.tables o.tables initialRenameState).renameMap t)).getD [])) ++
        post1 ++ (createTypeCmds o.types n.types ++
          createTableCmds o.tables
            (renamePhase n.tables o.tables initialRenameState).newMatched
            (replLoop n.tables (renamePhase n.tables o.tables initialRenameState).newMatched
              (renamePhase n.tables o.tables initialRenameState).oldMatched o.tables)
            n.tables ++
          dropTableCmds (renamePhase n.tables o.tables initialRenameState).oldMatched
            o.tables), ?_⟩
      rw [← hok, htbl, hcols]
      rw [List.flatMap_append, List.flatMap_cons, hmod]
      simp [List.append_assoc]

/-- Witness for C9: an `INTEGER` column with a default becoming a
`BOOLEAN` column with a default yields, contiguously, `DROP DEFAULT`, the
`ALTER ... TYPE BOOLEAN USING a != 0` command, and `SET DEFAULT`. -/
theorem C9_type_change_sequence_witness :
    ∃ pre post, ["ALTER TABLE t ALTER COLUMN a DROP DEFAULT;",
      "ALTER TABLE t ALTER COLUMN a TYPE BOOLEAN USING a != 0;",
      "ALTER TABLE t ALTER COLUMN a SET DEFAULT true;"] =
      pre ++ typeChangeBlock "t" ⟨"a", "BOOLEAN", false, some "true"⟩
        ⟨"a", "INTEGER", false, some "'1'"⟩ ++ post :=
  C9_type_change_sequence
    ⟨[], [("t", [⟨"a", "INTEGER", false, some "'1'"⟩])]⟩
    ⟨[], [("t", [⟨"a", "BOOLEAN", false, some "true"⟩])]⟩
    ["ALTER TABLE t ALTER COLUMN a DROP DEFAULT;",
     "ALTER TABLE t ALTER COLUMN a TYPE BOOLEAN USING a != 0;",
     "ALTER TABLE t ALTER COLUMN a SET DEFAULT true;"]
    "t" [⟨"a", "BOOLEAN", false, some "true"⟩]
    ⟨"a", "BOOLEAN", false, some "true"⟩ ⟨"a", "INTEGER", false, some "'1'"⟩
    (by rfl) (by simp) (by decide) (by simp) (by rfl) (by decide)

end PgDiff
